import Mathlib

/- Verification of the multi-strategy TikTok download/transcode/cache pipeline
   implemented in app.py.  Python functions are embedded shallowly as Lean
   functions; the filesystem, the network strategies and the external ffmpeg
   process are modelled as explicit state and oracle parameters. -/

set_option maxRecDepth 10000

namespace TikTokPipeline

/-- Embedding of the constant MAX_DOWNLOADS_PER_MINUTE = 20 from app.py. -/
def MAX_DOWNLOADS_PER_MINUTE : Nat := 20

/-- Embedding of the constant CACHE_EXPIRATION = 86400 (seconds) from app.py. -/
def CACHE_EXPIRATION : Nat := 86400

/-- Embedding of the constant MAX_CACHE_SIZE_MB = 5000 from app.py. -/
def MAX_CACHE_SIZE_MB : Nat := 5000

/-- Embedding of `can_perform_download` from app.py.  The global state
`download_timestamps` is passed and returned explicitly; `current_time` is an
integer number of seconds.  The function prunes timestamps older than 60
seconds, denies when at least `maxPerMinute` remain, and otherwise records the
current time and allows. -/
def canPerformDownload (now : Int) (timestamps : List Int) (maxPerMinute : Nat) :
    Bool × List Int :=
  let kept := timestamps.filter (fun ts => now - ts < 60)
  if kept.length ≥ maxPerMinute then (false, kept)
  else (true, kept ++ [now])

theorem length_filter_lt_of_exists_not {α : Type} (p : α → Bool) (l : List α)
    (h : ∃ x ∈ l, p x = false) : (l.filter p).length < l.length := by
  induction l with
  | nil => rcases h with ⟨x, hx, _⟩; cases hx
  | cons a l ih =>
    rcases h with ⟨x, hx, hpx⟩
    rcases List.mem_cons.mp hx with rfl | hxl
    · simp only [List.filter_cons, hpx, Bool.false_eq_true, if_false, List.length_cons]
      have : (l.filter p).length ≤ l.length := List.length_filter_le p l
      omega
    · by_cases hpa : p a = true
      · simp only [List.filter_cons, hpa, if_true, List.length_cons]
        exact Nat.succ_lt_succ (ih ⟨x, hxl, hpx⟩)
      · simp only [Bool.not_eq_true] at hpa
        simp only [List.filter_cons, hpa, Bool.false_eq_true, if_false, List.length_cons]
        have := ih ⟨x, hxl, hpx⟩
        omega

/-- C4: the rate limiter is a sliding-window counter.  An attempt is allowed
iff fewer than `M` admissions lie within the trailing 60-second window, and on
allow the current timestamp is recorded; in particular with `M` admissions in
the window the next attempt is denied, and once the window has slid past at
least one recorded admission of a full list a new attempt is allowed. -/
theorem rate_limiter_sliding_window (now : Int) (ts : List Int) (M : Nat) :
    ((canPerformDownload now ts M).1 = true ↔
      (ts.filter (fun t => now - t < 60)).length < M)
    ∧ ((canPerformDownload now ts M).1 = true →
        (canPerformDownload now ts M).2 =
          ts.filter (fun t => now - t < 60) ++ [now])
    ∧ ((ts.filter (fun t => now - t < 60)).length ≥ M →
        (canPerformDownload now ts M).1 = false)
    ∧ (ts.length = M → (∃ t ∈ ts, now - t ≥ 60) →
        (canPerformDownload now ts M).1 = true) := by
  refine ⟨?_, ?_, ?_, ?_⟩
  · unfold canPerformDownload
    by_cases h : (ts.filter (fun t => now - t < 60)).length ≥ M
    · rw [if_pos h]; simpa using h
    · rw [if_neg h]; simpa using Nat.lt_of_not_le h
  · unfold canPerformDownload
    by_cases h : (ts.filter (fun t => now - t < 60)).length ≥ M
    · rw [if_pos h]; intro hfalse; cases hfalse
    · rw [if_neg h]; intro _; rfl
  · intro h
    unfold canPerformDownload
    rw [if_pos h]
  · intro hlen ⟨t, htmem, ht⟩
    unfold canPerformDownload
    have hlt : (ts.filter (fun t => now - t < 60)).length < M := by
      have := length_filter_lt_of_exists_not (fun t => decide (now - t < 60)) ts
        ⟨t, htmem, by simp; omega⟩
      omega
    simp only [ge_iff_le]
    rw [if_neg (by omega)]

/-- Witness for C4 at concrete inputs: with the cap 3, three admissions inside
the window deny the fourth attempt, and once the oldest admission has left the
window a new attempt is allowed. -/
theorem rate_limiter_sliding_window_witness :
    (canPerformDownload 100 [50, 60, 70] 3).1 = false
    ∧ (canPerformDownload 125 [50, 66, 70] 3).1 = true := by
  constructor
  · exact (rate_limiter_sliding_window 100 [50, 60, 70] 3).2.2.1 (by decide)
  · exact (rate_limiter_sliding_window 125 [50, 66, 70] 3).2.2.2 (by decide)
      ⟨50, by decide, by decide⟩

/-- Drops `p` from the front of `s` when `p` is a prefix of `s`, and fails
otherwise.  Used to model matching a literal piece of a regular expression at
a fixed position. -/
def stripPrefixL : List Char → List Char → Option (List Char)
  | [], s => some s
  | _ :: _, [] => none
  | p :: ps, c :: cs => if p = c then stripPrefixL ps cs else none

/-- Substring containment, modelling Python's `needle in haystack`. -/
def containsSub (needle : List Char) : List Char → Bool
  | [] => needle.isEmpty
  | c :: rest => needle.isPrefixOf (c :: rest) || containsSub needle rest

/-- Attempts a match of the given pattern-matching function at each position
from left to right and returns the first capture, modelling `re.search`. -/
def scanOpt (f : List Char → Option (List Char)) : List Char → Option (List Char)
  | [] => none
  | c :: rest =>
    match f (c :: rest) with
    | some ds => some ds
    | none => scanOpt f rest

/-- Attempts the pattern `<marker>(\d+)` at the start of `s`: the literal
marker followed by a maximal nonempty run of digits, which is captured. -/
def tryLitDigitsAt (marker : List Char) (s : List Char) : Option (List Char) :=
  match stripPrefixL marker s with
  | some after =>
    let ds := after.takeWhile Char.isDigit
    if ds.isEmpty then none else some ds
  | none => none

/-- Characters matched by the regular-expression class `[\w.-]` (ASCII). -/
def isWordDotDash (c : Char) : Bool :=
  c.isAlphanum || c = '_' || c = '.' || c = '-'

/-- Attempts the second pattern of `extract_video_id`,
`tiktok\.com\/@[\w.-]+/video/(\d+)`, at the start of `s`.  The character
class excludes `/`, so the greedy `[\w.-]+` is deterministic. -/
def tryPat2At (s : List Char) : Option (List Char) :=
  match stripPrefixL "tiktok.com/@".toList s with
  | some after =>
    let w := after.takeWhile isWordDotDash
    if w.isEmpty then none
    else
      match stripPrefixL "/video/".toList (after.drop w.length) with
      | some after2 =>
        let ds := after2.takeWhile Char.isDigit
        if ds.isEmpty then none else some ds
      | none => none
  | none => none

/-- Models `re.search(pattern, s)` for the literal-then-digits patterns of
`extract_video_id` (`/video/(\d+)` and `v/(\d+)`). -/
def reSearchDigits (marker : List Char) (s : List Char) : Option (List Char) :=
  scanOpt (tryLitDigitsAt marker) s

/-- Embedding of `extract_video_id` from app.py.  The network call made by
`expand_shortened_url` is abstracted by the `expand` oracle; everything else
follows the source: short-link hosts are expanded first, then the three
patterns are tried in order. -/
def extractVideoId (expand : String → String) (url : String) : Option String :=
  let u :=
    if containsSub "vm.tiktok.com".toList url.toList
        || containsSub "vt.tiktok.com".toList url.toList
    then expand url else url
  let cs := u.toList
  match reSearchDigits "/video/".toList cs with
  | some ds => some ⟨ds⟩
  | none =>
    match scanOpt tryPat2At cs with
    | some ds => some ⟨ds⟩
    | none =>
      match reSearchDigits ['v', '/'] cs with
      | some ds => some ⟨ds⟩
      | none => none

/-- Finds the first `:` of a URL and requires it to be followed by `//`,
returning the remainder; models the scheme/netloc split of `urllib.parse.
urlparse` for URLs with a well-formed scheme. -/
def afterSchemeSep : List Char → Option (List Char)
  | [] => none
  | c :: rest =>
    if c = ':' then
      match rest with
      | '/' :: '/' :: r => some r
      | _ => none
    else afterSchemeSep rest

/-- Embedding of `urlparse(url).netloc` for URLs of the shape used by the
service: the host part between `://` and the next `/`, `?` or `#`. -/
def netlocOf (url : String) : String :=
  match afterSchemeSep url.toList with
  | some r => ⟨r.takeWhile (fun c => c ≠ '/' && c ≠ '?' && c ≠ '#')⟩
  | none => ""

/-- Embedding of `is_valid_tiktok_url` from app.py: the netloc must be one of
the five allowed TikTok hosts. -/
def isValidTiktokUrl (url : String) : Bool :=
  netlocOf url ∈ (["www.tiktok.com", "tiktok.com", "vm.tiktok.com",
    "vt.tiktok.com", "m.tiktok.com"] : List String)

/-- Embedding of the quality normalisation of `validate_input`: a quality
outside the four allowed bitrates falls back to "192". -/
def normQuality (quality : String) : String :=
  if quality ∈ (["128", "192", "256", "320"] : List String) then quality
  else "192"

/-- Embedding of Python's `str.strip()`: removes leading and trailing
whitespace. -/
def pyStrip (s : String) : String :=
  ⟨((s.toList.dropWhile Char.isWhitespace).reverse.dropWhile
      Char.isWhitespace).reverse⟩

/-- Embedding of `validate_input` from app.py (with Turnstile disabled, its
default).  Returns the validated (url, quality) pair or the 400-level error
message of the source. -/
def validateInput (url quality : String) : Except (String × Nat) (String × String) :=
  let u := pyStrip url
  if u = "" then .error ("No URL provided", 400)
  else if isValidTiktokUrl u = false then .error ("Invalid TikTok URL", 400)
  else .ok (u, normQuality (pyStrip quality))

/-- Embedding of the TEMP_DIR working directory of app.py. -/
def tempDir : String := "/tmp/tiktok_downloader"

/-- Path of the raw downloaded video, `os.path.join(TEMP_DIR, f"{video_id}.mp4")`
as written by each download method. -/
def mp4Path (videoId : String) : String := tempDir ++ "/" ++ videoId ++ ".mp4"

/-- Path of the transcoded artifact,
`os.path.join(TEMP_DIR, f"{video_id}_{quality}.mp3")`; this filename is the
cache key actually used by `get_tiktok_video`. -/
def mp3Path (videoId quality : String) : String :=
  tempDir ++ "/" ++ videoId ++ "_" ++ quality ++ ".mp3"

/-- Embedding of the `quality_bitrates` mapping of `convert_video_to_mp3`,
with the documented fallback to 192k. -/
def qualityBitrate (quality : String) : String :=
  if quality = "128" then "128k"
  else if quality = "192" then "192k"
  else if quality = "256" then "256k"
  else if quality = "320" then "320k"
  else "192k"

/-- The filesystem is a list of (path, size) pairs; the head entry for a path
shadows older ones. -/
def lookupFs (fs : List (String × Nat)) (p : String) : Option Nat :=
  (fs.find? (fun e => e.1 = p)).map (·.2)

/-- Writing (or overwriting) a file. -/
def setFs (fs : List (String × Nat)) (p : String) (sz : Nat) : List (String × Nat) :=
  (p, sz) :: fs

/-- Deleting a file (`os.remove`). -/
def delFs (fs : List (String × Nat)) (p : String) : List (String × Nat) :=
  fs.filter (fun e => e.1 ≠ p)

/-- Pipeline state threaded through a run: the temp-directory filesystem, the
`functools.lru_cache` memo tables of the four download methods (keyed by
(method index, video id), storing the memoised result including failures), and
the `active_downloads` registry. -/
structure PipeState where
  fs : List (String × Nat)
  memo : List ((Nat × String) × Option Nat)
  active : List String
deriving DecidableEq, Repr

/-- Instrumentation of a pipeline run: which download methods were called,
which actually executed their body (as opposed to an lru_cache hit), and for
which methods' artifacts ffmpeg was invoked. -/
structure Trace where
  methodsInvoked : List Nat
  methodsExecuted : List Nat
  convertsInvoked : List Nat
deriving DecidableEq, Repr

/-- The empty trace. -/
def emptyTrace : Trace := ⟨[], [], []⟩

/-- External-world oracles: `expand` models the redirect resolution of
`expand_shortened_url`; `methodRun i vid` models the outcome of the body of
the i-th download method (none = the body fails and returns None, some sz = a
raw video of sz bytes is written to `mp4Path vid` and the path returned);
`undersized i vid` refines HOW a failing body fails: `some usz` means it took
the undersized-download branch — it wrote `mp4Path vid` (usz < 10000 bytes,
truncating any previous file of that name) and then `os.remove`d it before
returning None — while `none` means it failed before writing anything;
`convRun i` models the ffmpeg invocation on the artifact produced by method i
(none = non-zero exit, some sz = an mp3 of sz bytes). -/
structure Oracles where
  expand : String → String
  methodRun : Nat → String → Option Nat
  undersized : Nat → String → Option Nat
  convRun : Nat → Option Nat

/-- One call of a download method through its `lru_cache` wrapper: a memo hit
returns the stored result without executing the body; a miss executes the
body, stores the result (also when it is a failure) and, on success, leaves
the raw video in the filesystem.  A failing body that reached the
undersized-download branch writes `{vid}.mp4` and then removes it
(app.py 309-311, 386-389, 473-476, 556-559, 604-607); any other failure
leaves the filesystem untouched.  The returned Bool records whether the body
executed. -/
def invokeMethod (orc : Oracles) (i : Nat) (vid : String) (st : PipeState) :
    Option Nat × PipeState × Bool :=
  match st.memo.find? (fun e => e.1 = (i, vid)) with
  | some e => (e.2, st, false)
  | none =>
    let r := orc.methodRun i vid
    let st' := { st with memo := ((i, vid), r) :: st.memo }
    match r with
    | some sz => (r, { st' with fs := setFs st'.fs (mp4Path vid) sz }, true)
    | none =>
      match orc.undersized i vid with
      | some usz =>
        (r, { st' with
          fs := delFs (setFs st'.fs (mp4Path vid) usz) (mp4Path vid) }, true)
      | none => (r, st', true)

/-- Result of the method-chain loop or of a whole `get_tiktok_video` call. -/
structure TryOut where
  result : Option String
  state : PipeState
  trace : Trace

/-- Embedding of the method loop of `get_tiktok_video`: methods are tried in
order; a successful download is handed to `convert_video_to_mp3`; a successful
conversion writes the mp3 and returns its path at once; a failed download OR a
failed conversion falls through to the next method; neither the loop nor the
conversion deletes any file (the only deletion is inside a failing method's
undersized-download branch, via `invokeMethod`). -/
def tryMethods (orc : Oracles) (vid quality : String) :
    List Nat → PipeState → TryOut
  | [], st => ⟨none, st, emptyTrace⟩
  | i :: rest, st =>
    match invokeMethod orc i vid st with
    | (dres, st₁, exec) =>
      let execL : List Nat := if exec then [i] else []
      match dres with
      | none =>
        let out := tryMethods orc vid quality rest st₁
        ⟨out.result, out.state,
          ⟨i :: out.trace.methodsInvoked, execL ++ out.trace.methodsExecuted,
            out.trace.convertsInvoked⟩⟩
      | some _ =>
        match orc.convRun i with
        | some msz =>
          ⟨some (mp3Path vid quality),
            { st₁ with fs := setFs st₁.fs (mp3Path vid quality) msz },
            ⟨[i], execL, [i]⟩⟩
        | none =>
          let out := tryMethods orc vid quality rest st₁
          ⟨out.result, out.state,
            ⟨i :: out.trace.methodsInvoked, execL ++ out.trace.methodsExecuted,
              i :: out.trace.convertsInvoked⟩⟩

/-- Adding an id to the `active_downloads` registry. -/
def insertActive (vid : String) (l : List String) : List String :=
  if vid ∈ l then l else vid :: l

/-- The `finally` block: removing an id from `active_downloads`. -/
def removeActive (vid : String) (l : List String) : List String :=
  l.filter (fun v => v ≠ vid)

/-- Result of `get_tiktok_video`: (mp3 path or none, video id or none), plus
final state and trace. -/
structure RunOut where
  result : Option String
  vid : Option String
  state : PipeState
  trace : Trace

/-- The un-cached tail of `get_tiktok_video` under sequential semantics: with
a single requester the filesystem cannot change while the in-flight polling
loop sleeps, so whether or not the id was registered the code falls through,
registers the id, runs the method chain, and deregisters in `finally`. -/
def runPipelineFull (orc : Oracles) (vid quality : String) (st : PipeState) : RunOut :=
  let st₁ := { st with active := insertActive vid st.active }
  let out := tryMethods orc vid quality [0, 1, 2, 3] st₁
  let st₂ := { out.state with active := removeActive vid out.state.active }
  ⟨out.result, some vid, st₂, out.trace⟩

/-- Embedding of `get_tiktok_video` from app.py (sequential semantics): id
extraction, then the cache check on the mp3 filename (hit iff the file exists
with positive size), then the in-flight bookkeeping and the method chain. -/
def getTiktokVideo (orc : Oracles) (url quality : String) (st : PipeState) : RunOut :=
  match extractVideoId orc.expand url with
  | none => ⟨none, none, st, emptyTrace⟩
  | some vid =>
    match lookupFs st.fs (mp3Path vid quality) with
    | some sz =>
      if 0 < sz then ⟨some (mp3Path vid quality), some vid, st, emptyTrace⟩
      else runPipelineFull orc vid quality st
    | none => runPipelineFull orc vid quality st

/-- The outcomes of the `/api/convert` route. -/
inductive ApiResponse where
  | rateLimited
  | badRequest (msg : String)
  | serverError (msg : String)
  | fileResponse (path : String) (downloadName : String)
deriving DecidableEq, Repr

/-- Embedding of the `convert_tiktok_to_mp3` route of app.py (Turnstile
disabled, its default): rate-limiter admission happens FIRST, then input
validation, then `get_tiktok_video`; a pipeline failure is a 500 with the
generic message, a success streams the artifact. -/
def convertTiktokToMp3 (orc : Oracles) (now : Int) (rateTs : List Int)
    (url quality : String) (st : PipeState) :
    ApiResponse × List Int × PipeState × Trace :=
  match canPerformDownload now rateTs MAX_DOWNLOADS_PER_MINUTE with
  | (ok, ts') =>
    if ok = false then (.rateLimited, ts', st, emptyTrace)
    else
      match validateInput url quality with
      | .error (msg, _) => (.badRequest msg, ts', st, emptyTrace)
      | .ok (u, q) =>
        let out := getTiktokVideo orc u q st
        match out.result with
        | none => (.serverError "Failed to download and convert video", ts',
            out.state, out.trace)
        | some mp3 =>
          (.fileResponse mp3 ("tiktok_" ++ out.vid.getD "" ++ "_" ++ q ++ "kbps.mp3"),
            ts', out.state, out.trace)

theorem lookupFs_setFs_exists (fs : List (String × Nat)) (p q : String) (s sz : Nat)
    (h : lookupFs fs p = some sz) : ∃ sz', lookupFs (setFs fs q s) p = some sz' := by
  by_cases hpq : q = p
  · exact ⟨s, by simp [lookupFs, setFs, List.find?, hpq]⟩
  · refine ⟨sz, ?_⟩
    simp only [lookupFs, setFs]
    rw [List.find?_cons_of_neg _ (by simp [hpq])]
    exact h

theorem invokeMethod_active (orc : Oracles) (i : Nat) (vid : String) (st : PipeState) :
    (invokeMethod orc i vid st).2.1.active = st.active := by
  unfold invokeMethod
  rcases h : st.memo.find? (fun e => e.1 = (i, vid)) with _ | e
  · rcases h2 : orc.methodRun i vid with _ | sz
    · rcases h3 : orc.undersized i vid with _ | usz <;> simp [h, h2, h3]
    · simp [h, h2]
  · simp [h]

theorem tryMethods_active (orc : Oracles) (vid q : String) :
    ∀ (idxs : List Nat) (st : PipeState),
      (tryMethods orc vid q idxs st).state.active = st.active
  | [], st => rfl
  | i :: rest, st => by
    have hact := invokeMethod_active orc i vid st
    unfold tryMethods
    rcases hinv : invokeMethod orc i vid st with ⟨dres, st₁, exec⟩
    rw [hinv] at hact
    rcases dres with _ | sz
    · simpa [tryMethods_active orc vid q rest st₁] using hact
    · rcases hc : orc.convRun i with _ | msz
      · simpa [hc, tryMethods_active orc vid q rest st₁] using hact
      · simpa [hc] using hact

theorem lookupFs_setFs_ne (fs : List (String × Nat)) (p q : String) (s : Nat)
    (h : p ≠ q) : lookupFs (setFs fs q s) p = lookupFs fs p := by
  simp only [lookupFs, setFs]
  rw [List.find?_cons_of_neg _ (by simp; exact fun hh => h hh.symm)]

theorem lookupFs_delFs_ne (fs : List (String × Nat)) (p q : String)
    (h : p ≠ q) : lookupFs (delFs fs q) p = lookupFs fs p := by
  induction fs with
  | nil => rfl
  | cons e rest ih =>
    by_cases he : e.1 = q
    · have hep : ¬ e.1 = p := by rw [he]; exact fun hh => h hh.symm
      have h1 : delFs (e :: rest) q = delFs rest q := by
        simp [delFs, List.filter_cons, he]
      rw [h1, ih]
      simp only [lookupFs]
      rw [List.find?_cons_of_neg _ (by simp [hep])]
    · have h1 : delFs (e :: rest) q = e :: delFs rest q := by
        simp [delFs, List.filter_cons, he]
      rw [h1]
      simp only [lookupFs]
      by_cases hep : e.1 = p
      · rw [List.find?_cons_of_pos _ (by simp [hep]),
          List.find?_cons_of_pos _ (by simp [hep])]
      · rw [List.find?_cons_of_neg _ (by simp [hep]),
          List.find?_cons_of_neg _ (by simp [hep])]
        simpa [lookupFs] using ih

theorem tryMethods_memoized_failures (orc : Oracles) (vid q : String) :
    ∀ (idxs : List Nat) (st : PipeState),
      (∀ i ∈ idxs, st.memo.find? (fun e => e.1 = (i, vid)) = some ((i, vid), none)) →
      tryMethods orc vid q idxs st = ⟨none, st, ⟨idxs, [], []⟩⟩
  | [], st, _ => rfl
  | i :: rest, st, hmemo => by
    have hi : st.memo.find? (fun e => e.1 = (i, vid)) = some ((i, vid), none) :=
      hmemo i (by simp)
    have ih := tryMethods_memoized_failures orc vid q rest st
      (fun j hj => hmemo j (by simp [hj]))
    unfold tryMethods invokeMethod
    rw [hi]
    simp [ih, emptyTrace]

theorem tryMethods_cons_dlfail (orc : Oracles) (vid q : String) (i : Nat)
    (rest : List Nat) (st : PipeState)
    (hi : st.memo.find? (fun e => e.1 = (i, vid)) = none)
    (hr : orc.methodRun i vid = none)
    (hu : orc.undersized i vid = none) :
    tryMethods orc vid q (i :: rest) st =
      (let out := tryMethods orc vid q rest
        { st with memo := ((i, vid), none) :: st.memo };
       ⟨out.result, out.state,
        ⟨i :: out.trace.methodsInvoked, i :: out.trace.methodsExecuted,
          out.trace.convertsInvoked⟩⟩) := by
  simp only [tryMethods, invokeMethod, hi, hr, hu]
  simp

theorem tryMethods_cons_dlsmall (orc : Oracles) (vid q : String) (i : Nat)
    (rest : List Nat) (st : PipeState) (usz : Nat)
    (hi : st.memo.find? (fun e => e.1 = (i, vid)) = none)
    (hr : orc.methodRun i vid = none)
    (hu : orc.undersized i vid = some usz) :
    tryMethods orc vid q (i :: rest) st =
      (let out := tryMethods orc vid q rest
        ⟨delFs (setFs st.fs (mp4Path vid) usz) (mp4Path vid),
          ((i, vid), none) :: st.memo, st.active⟩;
       ⟨out.result, out.state,
        ⟨i :: out.trace.methodsInvoked, i :: out.trace.methodsExecuted,
          out.trace.convertsInvoked⟩⟩) := by
  simp only [tryMethods, invokeMethod, hi, hr, hu]
  simp

theorem tryMethods_cons_convfail (orc : Oracles) (vid q : String) (i : Nat)
    (rest : List Nat) (st : PipeState) (sz : Nat)
    (hi : st.memo.find? (fun e => e.1 = (i, vid)) = none)
    (hr : orc.methodRun i vid = some sz)
    (hc : orc.convRun i = none) :
    tryMethods orc vid q (i :: rest) st =
      (let out := tryMethods orc vid q rest
        ⟨setFs st.fs (mp4Path vid) sz, ((i, vid), some sz) :: st.memo, st.active⟩;
       ⟨out.result, out.state,
        ⟨i :: out.trace.methodsInvoked, i :: out.trace.methodsExecuted,
          i :: out.trace.convertsInvoked⟩⟩) := by
  simp only [tryMethods, invokeMethod, hi, hr, hc]
  simp

theorem tryMethods_cons_convok (orc : Oracles) (vid q : String) (i : Nat)
    (rest : List Nat) (st : PipeState) (sz msz : Nat)
    (hi : st.memo.find? (fun e => e.1 = (i, vid)) = none)
    (hr : orc.methodRun i vid = some sz)
    (hc : orc.convRun i = some msz) :
    tryMethods orc vid q (i :: rest) st =
      ⟨some (mp3Path vid q),
        ⟨setFs (setFs st.fs (mp4Path vid) sz) (mp3Path vid q) msz,
          ((i, vid), some sz) :: st.memo, st.active⟩,
        ⟨[i], [i], [i]⟩⟩ := by
  simp only [tryMethods, invokeMethod, hi, hr, hc]
  simp

theorem find?_memo_cons_ne (memo : List ((Nat × String) × Option Nat))
    (i j : Nat) (vid : String) (r : Option Nat) (hij : j ≠ i) :
    (((i, vid), r) :: memo).find? (fun e => e.1 = (j, vid)) =
      memo.find? (fun e => e.1 = (j, vid)) := by
  apply List.find?_cons_of_neg
  simp [Prod.ext_iff]
  intro h
  exact absurd h (Ne.symm hij)

theorem tryMethods_fresh_spec (orc : Oracles) (vid q : String) :
    ∀ (idxs : List Nat) (st : PipeState),
      (∀ i ∈ idxs, st.memo.find? (fun e => e.1 = (i, vid)) = none) →
      idxs.Nodup →
      (((tryMethods orc vid q idxs st).result = none ↔
          ∀ i ∈ idxs, orc.methodRun i vid = none ∨ orc.convRun i = none)
        ∧ (∀ j ∈ (tryMethods orc vid q idxs st).trace.convertsInvoked, j ∈ idxs)
        ∧ (tryMethods orc vid q idxs st).trace.convertsInvoked.Nodup
        ∧ ((tryMethods orc vid q idxs st).result = none →
            (tryMethods orc vid q idxs st).trace.methodsInvoked = idxs))
  | [], st, _, _ => by simp [tryMethods, emptyTrace]
  | i :: rest, st, hmemo, hnodup => by
    have hi : st.memo.find? (fun e => e.1 = (i, vid)) = none := hmemo i (by simp)
    have hnd := List.nodup_cons.mp hnodup
    rcases hr : orc.methodRun i vid with _ | sz
    · have hmemo' : ∀ j ∈ rest,
          (((i, vid), (none : Option Nat)) :: st.memo).find?
            (fun e => e.1 = (j, vid)) = none := by
        intro j hj
        have hji : j ≠ i := fun h => absurd (h ▸ hj) hnd.1
        simpa [find?_memo_cons_ne st.memo i j vid none hji] using hmemo j (by simp [hj])
      rcases hu : orc.undersized i vid with _ | usz
      · rw [tryMethods_cons_dlfail orc vid q i rest st hi hr hu]
        have ih := tryMethods_fresh_spec orc vid q rest
          { st with memo := ((i, vid), none) :: st.memo } hmemo' hnd.2
        refine ⟨?_, ?_, ?_, ?_⟩
        · simp only []
          constructor
          · intro h j hj
            rcases List.mem_cons.mp hj with rfl | hjr
            · exact Or.inl hr
            · exact ih.1.mp h j hjr
          · intro h
            exact ih.1.mpr (fun j hj => h j (List.mem_cons_of_mem i hj))
        · intro j hj
          exact List.mem_cons_of_mem i (ih.2.1 j hj)
        · exact ih.2.2.1
        · intro hres
          simpa using ih.2.2.2 hres
      · rw [tryMethods_cons_dlsmall orc vid q i rest st usz hi hr hu]
        have ih := tryMethods_fresh_spec orc vid q rest
          ⟨delFs (setFs st.fs (mp4Path vid) usz) (mp4Path vid),
            ((i, vid), none) :: st.memo, st.active⟩ hmemo' hnd.2
        refine ⟨?_, ?_, ?_, ?_⟩
        · simp only []
          constructor
          · intro h j hj
            rcases List.mem_cons.mp hj with rfl | hjr
            · exact Or.inl hr
            · exact ih.1.mp h j hjr
          · intro h
            exact ih.1.mpr (fun j hj => h j (List.mem_cons_of_mem i hj))
        · intro j hj
          exact List.mem_cons_of_mem i (ih.2.1 j hj)
        · exact ih.2.2.1
        · intro hres
          simpa using ih.2.2.2 hres
    · rcases hc : orc.convRun i with _ | msz
      · rw [tryMethods_cons_convfail orc vid q i rest st sz hi hr hc]
        have hmemo' : ∀ j ∈ rest,
            (PipeState.mk (setFs st.fs (mp4Path vid) sz)
              (((i, vid), some sz) :: st.memo) st.active).memo.find?
              (fun e => e.1 = (j, vid)) = none := by
          intro j hj
          have hji : j ≠ i := fun h => absurd (h ▸ hj) hnd.1
          simpa [find?_memo_cons_ne st.memo i j vid (some sz) hji]
            using hmemo j (by simp [hj])
        have ih := tryMethods_fresh_spec orc vid q rest
          ⟨setFs st.fs (mp4Path vid) sz, ((i, vid), some sz) :: st.memo, st.active⟩
          hmemo' hnd.2
        refine ⟨?_, ?_, ?_, ?_⟩
        · constructor
          · intro h j hj
            rcases List.mem_cons.mp hj with rfl | hjr
            · exact Or.inr hc
            · exact ih.1.mp h j hjr
          · intro h
            exact ih.1.mpr (fun j hj => h j (List.mem_cons_of_mem i hj))
        · intro j hj
          rcases List.mem_cons.mp hj with rfl | hjr
          · exact List.mem_cons_self j rest
          · exact List.mem_cons_of_mem i (ih.2.1 j hjr)
        · refine List.nodup_cons.mpr ⟨fun hmem => ?_, ih.2.2.1⟩
          exact hnd.1 (ih.2.1 i hmem)
        · intro hres
          simpa using ih.2.2.2 hres
      · rw [tryMethods_cons_convok orc vid q i rest st sz msz hi hr hc]
        refine ⟨?_, ?_, ?_, ?_⟩
        · constructor
          · intro h; cases h
          · intro h
            rcases h i (List.mem_cons_self i rest) with h' | h'
            · rw [hr] at h'; cases h'
            · rw [hc] at h'; cases h'
        · intro j hj
          simp only [List.mem_singleton] at hj
          simp [hj]
        · exact List.nodup_singleton i
        · intro hres; cases hres

theorem lookupFs_setFs_self (fs : List (String × Nat)) (p : String) (s : Nat) :
    lookupFs (setFs fs p s) p = some s := by
  simp [lookupFs, setFs, List.find?]

/-- Filesystem effects of the method loop with fresh lru caches: (i) the loop
deletes no file other than possibly `mp4Path vid`; (ii) a run that returns an
mp3 leaves the successful method's raw mp4 in place; (iii) `mp4Path vid` can
disappear only through a failing method's undersized-download branch. -/
theorem tryMethods_fs_spec (orc : Oracles) (vid q : String) :
    ∀ (idxs : List Nat) (st : PipeState),
      (∀ i ∈ idxs, st.memo.find? (fun e => e.1 = (i, vid)) = none) →
      idxs.Nodup →
      ((∀ p psz, p ≠ mp4Path vid → lookupFs st.fs p = some psz →
          ∃ psz', lookupFs (tryMethods orc vid q idxs st).state.fs p = some psz')
        ∧ (∀ r, (tryMethods orc vid q idxs st).result = some r →
            ∃ sz', lookupFs (tryMethods orc vid q idxs st).state.fs
              (mp4Path vid) = some sz')
        ∧ (lookupFs (tryMethods orc vid q idxs st).state.fs (mp4Path vid) = none →
            lookupFs st.fs (mp4Path vid) = none ∨
              ∃ i ∈ idxs, orc.methodRun i vid = none ∧ orc.undersized i vid ≠ none))
  | [], st, _, _ =>
    ⟨fun _ psz _ h => ⟨psz, h⟩,
      fun r hr => absurd hr (by simp [tryMethods]),
      fun h => Or.inl h⟩
  | i :: rest, st, hmemo, hnodup => by
    have hi : st.memo.find? (fun e => e.1 = (i, vid)) = none := hmemo i (by simp)
    have hnd := List.nodup_cons.mp hnodup
    have hmemo' : ∀ (r0 : Option Nat), ∀ j ∈ rest,
        (((i, vid), r0) :: st.memo).find? (fun e => e.1 = (j, vid)) = none := by
      intro r0 j hj
      have hji : j ≠ i := fun h => absurd (h ▸ hj) hnd.1
      simpa [find?_memo_cons_ne st.memo i j vid r0 hji] using hmemo j (by simp [hj])
    rcases hr : orc.methodRun i vid with _ | sz
    · rcases hu : orc.undersized i vid with _ | usz
      · rw [tryMethods_cons_dlfail orc vid q i rest st hi hr hu]
        have ih := tryMethods_fs_spec orc vid q rest
          { st with memo := ((i, vid), none) :: st.memo } (hmemo' none) hnd.2
        refine ⟨?_, ?_, ?_⟩
        · intro p psz hne h
          exact ih.1 p psz hne h
        · intro r hrr
          exact ih.2.1 r hrr
        · intro hafter
          rcases ih.2.2 hafter with hbefore | ⟨j, hj, hjs⟩
          · exact Or.inl hbefore
          · exact Or.inr ⟨j, List.mem_cons_of_mem i hj, hjs⟩
      · rw [tryMethods_cons_dlsmall orc vid q i rest st usz hi hr hu]
        have ih := tryMethods_fs_spec orc vid q rest
          ⟨delFs (setFs st.fs (mp4Path vid) usz) (mp4Path vid),
            ((i, vid), none) :: st.memo, st.active⟩ (hmemo' none) hnd.2
        refine ⟨?_, ?_, ?_⟩
        · intro p psz hne h
          refine ih.1 p psz hne ?_
          show lookupFs (delFs (setFs st.fs (mp4Path vid) usz) (mp4Path vid)) p =
            some psz
          rw [lookupFs_delFs_ne _ _ _ hne, lookupFs_setFs_ne _ _ _ _ hne]
          exact h
        · intro r hrr
          exact ih.2.1 r hrr
        · intro _
          exact Or.inr ⟨i, List.mem_cons_self i rest, hr, by simp [hu]⟩
    · rcases hc : orc.convRun i with _ | msz
      · rw [tryMethods_cons_convfail orc vid q i rest st sz hi hr hc]
        have ih := tryMethods_fs_spec orc vid q rest
          ⟨setFs st.fs (mp4Path vid) sz, ((i, vid), some sz) :: st.memo, st.active⟩
          (hmemo' (some sz)) hnd.2
        refine ⟨?_, ?_, ?_⟩
        · intro p psz hne h
          refine ih.1 p psz hne ?_
          show lookupFs (setFs st.fs (mp4Path vid) sz) p = some psz
          rw [lookupFs_setFs_ne _ _ _ _ hne]
          exact h
        · intro r hrr
          exact ih.2.1 r hrr
        · intro hafter
          rcases ih.2.2 hafter with hbefore | ⟨j, hj, hjs⟩
          · have hb : lookupFs (setFs st.fs (mp4Path vid) sz) (mp4Path vid) = none :=
              hbefore
            rw [lookupFs_setFs_self] at hb
            exact absurd hb (by simp)
          · exact Or.inr ⟨j, List.mem_cons_of_mem i hj, hjs⟩
      · rw [tryMethods_cons_convok orc vid q i rest st sz msz hi hr hc]
        refine ⟨?_, ?_, ?_⟩
        · intro p psz hne h
          exact lookupFs_setFs_exists _ p (mp3Path vid q) msz _
            ((lookupFs_setFs_exists st.fs p (mp4Path vid) sz psz h).choose_spec)
        · intro r _
          exact lookupFs_setFs_exists _ (mp4Path vid) (mp3Path vid q) msz sz
            (lookupFs_setFs_self st.fs (mp4Path vid) sz)
        · intro hafter
          rcases lookupFs_setFs_exists (setFs st.fs (mp4Path vid) sz) (mp4Path vid)
              (mp3Path vid q) msz sz (lookupFs_setFs_self st.fs (mp4Path vid) sz)
            with ⟨a, ha⟩
          have hafter' : lookupFs (setFs (setFs st.fs (mp4Path vid) sz)
              (mp3Path vid q) msz) (mp4Path vid) = none := hafter
          rw [hafter'] at ha
          exact absurd ha (by simp)

/-- Oracles for which every download method fails. -/
def noopOracles : Oracles := ⟨id, fun _ _ => none, fun _ _ => none, fun _ => none⟩

/-- Oracles for which method 0 downloads a video whose transcode fails, and
method 1 downloads a video whose transcode succeeds. -/
def orcC2 : Oracles :=
  ⟨id, fun i _ => if i = 0 then some 20000 else if i = 1 then some 30000 else none,
    fun _ _ => none,
    fun i => if i = 1 then some 5000 else none⟩

/-- Oracles for which method 0 downloads a video and its transcode succeeds. -/
def orcC3 : Oracles :=
  ⟨id, fun i _ => if i = 0 then some 20000 else none,
    fun _ _ => none,
    fun i => if i = 0 then some 4000 else none⟩

/-- Oracles for which method 0 downloads a video whose transcode fails, and
method 1 then fails through the undersized-download branch, writing and then
removing `{vid}.mp4` — thereby deleting method 0's acquired raw video. -/
def orcC3del : Oracles :=
  ⟨id, fun i _ => if i = 0 then some 20000 else none,
    fun i _ => if i = 1 then some 500 else none,
    fun _ => none⟩

/-- A standard-form video URL used in concrete scenarios. -/
def urlAlice : String := "https://www.tiktok.com/@alice/video/42"

/-- The empty pipeline state: no files, no memo entries, nothing in flight. -/
def emptyState : PipeState := ⟨[], [], []⟩

/-- A state whose filesystem holds a cached mp3 for video 42 at quality 192. -/
def cachedState : PipeState := ⟨[(mp3Path "42" "192", 777)], [], []⟩

/-- A saturated rate-limiter history: 20 admissions one second ago. -/
def fullTimestamps : List Int := List.replicate 20 99

theorem getTiktokVideo_cache_hit (orc : Oracles) (url quality vid : String)
    (st : PipeState) (sz : Nat)
    (hvid : extractVideoId orc.expand url = some vid)
    (hcache : lookupFs st.fs (mp3Path vid quality) = some sz) (hsz : 0 < sz) :
    getTiktokVideo orc url quality st =
      ⟨some (mp3Path vid quality), some vid, st, emptyTrace⟩ := by
  simp only [getTiktokVideo, hvid, hcache]
  rw [if_pos hsz]

theorem getTiktokVideo_cache_miss (orc : Oracles) (url quality vid : String)
    (st : PipeState)
    (hvid : extractVideoId orc.expand url = some vid)
    (hmiss : lookupFs st.fs (mp3Path vid quality) = none) :
    getTiktokVideo orc url quality st = runPipelineFull orc vid quality st := by
  simp only [getTiktokVideo, hvid, hmiss]

theorem runPipelineFull_proj (orc : Oracles) (vid quality : String) (st : PipeState) :
    runPipelineFull orc vid quality st =
      ⟨(tryMethods orc vid quality [0, 1, 2, 3]
          { st with active := insertActive vid st.active }).result,
        some vid,
        ⟨(tryMethods orc vid quality [0, 1, 2, 3]
            { st with active := insertActive vid st.active }).state.fs,
          (tryMethods orc vid quality [0, 1, 2, 3]
            { st with active := insertActive vid st.active }).state.memo,
          removeActive vid (tryMethods orc vid quality [0, 1, 2, 3]
            { st with active := insertActive vid st.active }).state.active⟩,
        (tryMethods orc vid quality [0, 1, 2, 3]
          { st with active := insertActive vid st.active }).trace⟩ := rfl

/-- C5: idempotence.  While a cached, non-expired entry (the mp3 file, present
with positive size) exists for a fingerprint (video id, quality), a call of
`get_tiktok_video` returns that same artifact path, invokes no download
method and no transcode, and leaves the whole state unchanged — so every
repeated call returns the same path. -/
theorem cached_entry_idempotent (orc : Oracles) (url quality vid : String)
    (st : PipeState) (sz : Nat)
    (hvid : extractVideoId orc.expand url = some vid)
    (hcache : lookupFs st.fs (mp3Path vid quality) = some sz) (hsz : 0 < sz) :
    getTiktokVideo orc url quality st =
      ⟨some (mp3Path vid quality), some vid, st, emptyTrace⟩ :=
  getTiktokVideo_cache_hit orc url quality vid st sz hvid hcache hsz

/-- Witness for C5: with video 42 cached at quality 192 the call returns the
cached path with an empty trace and unchanged state. -/
theorem cached_entry_idempotent_witness :
    getTiktokVideo noopOracles urlAlice "192" cachedState =
      ⟨some (mp3Path "42" "192"), some "42", cachedState, emptyTrace⟩ :=
  cached_entry_idempotent noopOracles urlAlice "192" "42" cachedState 777
    (by decide) (by decide) (by decide)

/-- C2 counterexample: with `orcC2` the transcoder fails (non-zero exit) on
the artifact downloaded by method 0, yet the run does NOT terminate in
failure: method 1 is attempted afterwards, its artifact is transcoded, and
the run succeeds — contradicting "a transcoding failure is a terminal error
for the pipeline run and no further extraction strategy is attempted". -/
theorem transcode_failure_not_terminal_counterexample :
    orcC2.convRun 0 = none
    ∧ (getTiktokVideo orcC2 urlAlice "192" emptyState).trace.convertsInvoked = [0, 1]
    ∧ (getTiktokVideo orcC2 urlAlice "192" emptyState).trace.methodsInvoked = [0, 1]
    ∧ (getTiktokVideo orcC2 urlAlice "192" emptyState).result =
        some (mp3Path "42" "192") := by
  decide

/-- C2 (amended): a transcoding failure is terminal only for the current
strategy's artifact — the transcoder is never re-invoked on the same
artifact (`convertsInvoked` has no duplicates) — but the pipeline then
advances to the next extraction strategy; the whole run fails iff every
method fails to download or fails to transcode, and on such a failure all
four methods were attempted. -/
theorem transcode_failure_advances_to_next_strategy (orc : Oracles)
    (url quality vid : String) (st : PipeState)
    (hvid : extractVideoId orc.expand url = some vid)
    (hmiss : lookupFs st.fs (mp3Path vid quality) = none)
    (hmemo : st.memo = []) :
    ((getTiktokVideo orc url quality st).result = none ↔
      ∀ i ∈ [0, 1, 2, 3], orc.methodRun i vid = none ∨ orc.convRun i = none)
    ∧ (getTiktokVideo orc url quality st).trace.convertsInvoked.Nodup
    ∧ ((getTiktokVideo orc url quality st).result = none →
        (getTiktokVideo orc url quality st).trace.methodsInvoked = [0, 1, 2, 3]) := by
  rw [getTiktokVideo_cache_miss orc url quality vid st hvid hmiss,
    runPipelineFull_proj]
  have hfresh : ∀ i ∈ [0, 1, 2, 3],
      (PipeState.mk st.fs st.memo (insertActive vid st.active)).memo.find?
        (fun e => e.1 = (i, vid)) = none := by
    intro i _
    simp [hmemo]
  have h := tryMethods_fresh_spec orc vid quality [0, 1, 2, 3]
    { st with active := insertActive vid st.active } hfresh (by decide)
  exact ⟨h.1, h.2.2.1, h.2.2.2⟩

/-- Witness for C2 (amended): with all methods failing the run fails and all
four strategies were attempted. -/
theorem transcode_failure_advances_to_next_strategy_witness :
    (getTiktokVideo noopOracles urlAlice "192" emptyState).trace.methodsInvoked =
      [0, 1, 2, 3] := by
  have h := transcode_failure_advances_to_next_strategy noopOracles urlAlice
    "192" "42" emptyState (by decide) (by decide) rfl
  exact h.2.2 (h.1.mpr (by decide))

/-- C3 counterexample: with `orcC3` the pipeline downloads via method 0,
transcodes it successfully and returns the mp3, yet the raw acquired mp4 is
STILL present in the temp directory after the run — contradicting "the raw
acquired media file is deleted from local storage after transcoding". -/
theorem raw_video_retained_counterexample :
    (getTiktokVideo orcC3 urlAlice "192" emptyState).trace.convertsInvoked = [0]
    ∧ (getTiktokVideo orcC3 urlAlice "192" emptyState).result =
        some (mp3Path "42" "192")
    ∧ lookupFs (getTiktokVideo orcC3 urlAlice "192" emptyState).state.fs
        (mp4Path "42") = some 20000 := by
  decide

/-- C3 (amended): the raw acquired mp4 is NOT deleted after transcoding.  On a
cache miss with fresh lru caches: (i) the pipeline deletes no file other than
possibly `{vid}.mp4`; (ii) a run that returns an mp3 leaves the successful
method's raw mp4 in the temp directory; (iii) `{vid}.mp4` can disappear during
a run only through a failing method's undersized-download branch (which writes
the file and then removes it); and (iv) with `orcC3del` a later method's
undersized download does delete the mp4 acquired by method 0 within the same
run.  Outside that branch the mp4 persists until `cleanup_old_files` or the
admin cache clear removes it. -/
theorem raw_video_not_deleted_by_pipeline (orc : Oracles)
    (url quality vid : String) (st : PipeState)
    (hvid : extractVideoId orc.expand url = some vid)
    (hmiss : lookupFs st.fs (mp3Path vid quality) = none)
    (hmemo : st.memo = []) :
    ((∀ p psz, p ≠ mp4Path vid → lookupFs st.fs p = some psz →
        ∃ psz', lookupFs (getTiktokVideo orc url quality st).state.fs p = some psz')
      ∧ (∀ r, (getTiktokVideo orc url quality st).result = some r →
          ∃ sz', lookupFs (getTiktokVideo orc url quality st).state.fs
            (mp4Path vid) = some sz')
      ∧ (lookupFs (getTiktokVideo orc url quality st).state.fs (mp4Path vid) = none →
          lookupFs st.fs (mp4Path vid) = none ∨
            ∃ i ∈ [0, 1, 2, 3], orc.methodRun i vid = none ∧
              orc.undersized i vid ≠ none))
    ∧ (orcC3del.methodRun 0 "42" = some 20000
        ∧ (getTiktokVideo orcC3del urlAlice "192" emptyState).result = none
        ∧ lookupFs (getTiktokVideo orcC3del urlAlice "192" emptyState).state.fs
            (mp4Path "42") = none) := by
  constructor
  · rw [getTiktokVideo_cache_miss orc url quality vid st hvid hmiss,
      runPipelineFull_proj]
    have hfresh : ∀ i ∈ [0, 1, 2, 3],
        (PipeState.mk st.fs st.memo (insertActive vid st.active)).memo.find?
          (fun e => e.1 = (i, vid)) = none := by
      intro i _
      simp [hmemo]
    exact tryMethods_fs_spec orc vid quality [0, 1, 2, 3]
      { st with active := insertActive vid st.active } hfresh (by decide)
  · decide

/-- Witness for C3 (amended): with `orcC3` the successful run leaves the raw
mp4 of video 42 in the temp directory. -/
theorem raw_video_not_deleted_by_pipeline_witness :
    ∃ sz', lookupFs (getTiktokVideo orcC3 urlAlice "192" emptyState).state.fs
      (mp4Path "42") = some sz' :=
  (raw_video_not_deleted_by_pipeline orcC3 urlAlice "192" "42" emptyState
    (by decide) (by decide) rfl).1.2.1 (mp3Path "42" "192") (by decide)

/-- C9 counterexample: after a run in which every download method failed, a
second request for the same fingerprint does NOT invoke the extraction
strategies again: the `lru_cache` of each method returns the memoised failure
and the run fails with zero strategy executions — contradicting "the
extraction/download strategies are invoked again rather than returning a
memoized failure result". -/
theorem memoized_failure_counterexample :
    (getTiktokVideo noopOracles urlAlice "192" emptyState).result = none
    ∧ (getTiktokVideo noopOracles urlAlice "192" emptyState).trace.methodsExecuted =
        [0, 1, 2, 3]
    ∧ (getTiktokVideo noopOracles urlAlice "192" emptyState).state.active = []
    ∧ (getTiktokVideo noopOracles urlAlice "192"
        (getTiktokVideo noopOracles urlAlice "192" emptyState).state).result = none
    ∧ (getTiktokVideo noopOracles urlAlice "192"
        (getTiktokVideo noopOracles urlAlice "192" emptyState).state).trace.methodsExecuted =
        [] := by
  decide

/-- C9 (amended): on terminal failure the fingerprint IS deregistered from the
in-flight registry, but a subsequent request with the same fingerprint does
not re-execute the strategies: each method's `lru_cache` holds the memoised
failure, so the retry calls all four methods yet executes none of their
bodies and fails again (until the memo caches are cleared or evicted). -/
theorem failure_deregisters_but_memoizes (orc : Oracles)
    (url quality vid : String) (st : PipeState)
    (hvid : extractVideoId orc.expand url = some vid)
    (hmiss : lookupFs st.fs (mp3Path vid quality) = none)
    (hmemo : ∀ i ∈ [0, 1, 2, 3],
      st.memo.find? (fun e => e.1 = (i, vid)) = some ((i, vid), none)) :
    (getTiktokVideo orc url quality st).result = none
    ∧ (getTiktokVideo orc url quality st).trace.methodsExecuted = []
    ∧ (getTiktokVideo orc url quality st).trace.methodsInvoked = [0, 1, 2, 3]
    ∧ vid ∉ (getTiktokVideo orc url quality st).state.active := by
  rw [getTiktokVideo_cache_miss orc url quality vid st hvid hmiss,
    runPipelineFull_proj]
  have h := tryMethods_memoized_failures orc vid quality [0, 1, 2, 3]
    { st with active := insertActive vid st.active } (fun i hi => hmemo i hi)
  rw [h]
  refine ⟨rfl, rfl, rfl, ?_⟩
  simp [removeActive]

/-- Witness for C9 (amended): with the four failures memoised for video 42,
the retry executes no method body and the id is not left in flight. -/
theorem failure_deregisters_but_memoizes_witness :
    (getTiktokVideo noopOracles urlAlice "192"
      ⟨[], [((0, "42"), none), ((1, "42"), none), ((2, "42"), none),
        ((3, "42"), none)], []⟩).trace.methodsExecuted = []
    ∧ "42" ∉ (getTiktokVideo noopOracles urlAlice "192"
      ⟨[], [((0, "42"), none), ((1, "42"), none), ((2, "42"), none),
        ((3, "42"), none)], []⟩).state.active := by
  have h := failure_deregisters_but_memoizes noopOracles urlAlice "192" "42"
    ⟨[], [((0, "42"), none), ((1, "42"), none), ((2, "42"), none),
      ((3, "42"), none)], []⟩ (by decide) (by decide) (by decide)
  exact ⟨h.2.1, h.2.2.2⟩

/-- C10: a URL whose host is in the allowed TikTok domain set but from which
no video id can be extracted passes `validate_input` and then fails inside
the pipeline: provided the rate limiter admits the request, the route answers
with the generic 500 response "Failed to download and convert video", not
with a 400 validation error. -/
theorem valid_host_unextractable_id_yields_500 (orc : Oracles) (now : Int)
    (rateTs : List Int) (url quality : String) (st : PipeState)
    (hrate : (canPerformDownload now rateTs MAX_DOWNLOADS_PER_MINUTE).1 = true)
    (hne : pyStrip url ≠ "")
    (hvalid : isValidTiktokUrl (pyStrip url) = true)
    (hext : extractVideoId orc.expand (pyStrip url) = none) :
    (convertTiktokToMp3 orc now rateTs url quality st).1 =
      .serverError "Failed to download and convert video" := by
  have hval : validateInput url quality =
      .ok (pyStrip url, normQuality (pyStrip quality)) := by
    unfold validateInput
    rw [if_neg hne, if_neg (by simp [hvalid])]
  have hrun : getTiktokVideo orc (pyStrip url) (normQuality (pyStrip quality)) st =
      ⟨none, none, st, emptyTrace⟩ := by
    simp only [getTiktokVideo, hext]
  unfold convertTiktokToMp3
  rcases hcp : canPerformDownload now rateTs MAX_DOWNLOADS_PER_MINUTE with ⟨ok, ts'⟩
  rw [hcp] at hrate
  simp only at hrate
  subst hrate
  simp only [hval, hrun, Bool.true_eq_false, if_false]

/-- Witness for C10: the URL https://www.tiktok.com/about has an allowed host
but no extractable id; the route returns the generic 500. -/
theorem valid_host_unextractable_id_yields_500_witness :
    (convertTiktokToMp3 noopOracles 0 [] "https://www.tiktok.com/about" "192"
      emptyState).1 = .serverError "Failed to download and convert video" :=
  valid_host_unextractable_id_yields_500 noopOracles 0 [] "https://www.tiktok.com/about"
    "192" emptyState (by decide) (by decide) (by decide) (by decide)

/-- C6 counterexample: the route checks the rate limiter BEFORE the cache.
With the limiter saturated and the requested artifact already cached, the
route answers 429 rate-limited instead of serving the cached artifact —
contradicting "a cached request is never rejected with a rate-limit
denial". -/
theorem cached_request_rate_limited_counterexample :
    lookupFs cachedState.fs (mp3Path "42" "192") = some 777
    ∧ (convertTiktokToMp3 noopOracles 100 fullTimestamps urlAlice "192"
        cachedState).1 = .rateLimited := by
  decide

/-- C6 (amended): rate-limiter admission precedes the cache check.  When the
limiter denies, the response is 429 regardless of the cache contents; when
the limiter admits, a cached request is served from the cache with no
strategy invocation. -/
theorem rate_check_precedes_cache_check (orc : Oracles) (now : Int)
    (rateTs : List Int) (url quality : String) (st : PipeState) :
    ((canPerformDownload now rateTs MAX_DOWNLOADS_PER_MINUTE).1 = false →
      (convertTiktokToMp3 orc now rateTs url quality st).1 = .rateLimited)
    ∧ (∀ vid sz,
        (canPerformDownload now rateTs MAX_DOWNLOADS_PER_MINUTE).1 = true →
        pyStrip url ≠ "" →
        isValidTiktokUrl (pyStrip url) = true →
        extractVideoId orc.expand (pyStrip url) = some vid →
        lookupFs st.fs (mp3Path vid (normQuality (pyStrip quality))) = some sz →
        0 < sz →
        (convertTiktokToMp3 orc now rateTs url quality st).1 =
          .fileResponse (mp3Path vid (normQuality (pyStrip quality)))
            ("tiktok_" ++ vid ++ "_" ++ normQuality (pyStrip quality) ++ "kbps.mp3")
        ∧ (convertTiktokToMp3 orc now rateTs url quality st).2.2.2 = emptyTrace) := by
  constructor
  · intro hdenied
    unfold convertTiktokToMp3
    rcases hcp : canPerformDownload now rateTs MAX_DOWNLOADS_PER_MINUTE with ⟨ok, ts'⟩
    rw [hcp] at hdenied
    simp only at hdenied
    subst hdenied
    simp
  · intro vid sz hadmit hne hvalid hext hcache hsz
    have hval : validateInput url quality =
        .ok (pyStrip url, normQuality (pyStrip quality)) := by
      unfold validateInput
      rw [if_neg hne, if_neg (by simp [hvalid])]
    have hrun := getTiktokVideo_cache_hit orc (pyStrip url)
      (normQuality (pyStrip quality)) vid st sz hext hcache hsz
    unfold convertTiktokToMp3
    rcases hcp : canPerformDownload now rateTs MAX_DOWNLOADS_PER_MINUTE with ⟨ok, ts'⟩
    rw [hcp] at hadmit
    simp only at hadmit
    subst hadmit
    simp [hval, hrun]

/-- Witness for C6 (amended): both branches at concrete inputs — a saturated
limiter answers 429, and an admitted cached request is served from cache. -/
theorem rate_check_precedes_cache_check_witness :
    (convertTiktokToMp3 noopOracles 100 fullTimestamps "https://vm.tiktok.com/x"
      "192" emptyState).1 = .rateLimited
    ∧ (convertTiktokToMp3 noopOracles 100 [] urlAlice "192" cachedState).1 =
        .fileResponse (mp3Path "42" "192") ("tiktok_" ++ "42" ++ "_" ++ "192" ++ "kbps.mp3") := by
  constructor
  · exact (rate_check_precedes_cache_check noopOracles 100 fullTimestamps
      "https://vm.tiktok.com/x" "192" emptyState).1 (by decide)
  · exact ((rate_check_precedes_cache_check noopOracles 100 [] urlAlice "192"
      cachedState).2 "42" 777 (by decide) (by decide) (by decide) (by decide)
      (by decide) (by decide)).1

/-- The fingerprint in effect in app.py: the cache filename derived from the
extracted video id and the requested quality (note `generate_cache_key` is
defined in the source but never called; the mp3 filename is the key that
`get_tiktok_video` checks and populates). -/
def requestFingerprint (expand : String → String) (url quality : String) :
    Option String :=
  (extractVideoId expand url).map (fun vid => mp3Path vid quality)

theorem stripPrefixL_append_self : ∀ (m r : List Char), stripPrefixL m (m ++ r) = some r
  | [], _ => rfl
  | c :: m, r => by simp [stripPrefixL, stripPrefixL_append_self m r]

/-- Three-valued prefix matching within a bounded window `l`:
`some (some after)` means the marker matched entirely inside `l` leaving
`after`; `some none` means a mismatch occurred inside `l` (so the match fails
however `l` is extended); `none` means `l` was exhausted first (undetermined). -/
def stripPrefix3 : List Char → List Char → Option (Option (List Char))
  | [], s => some (some s)
  | _ :: _, [] => none
  | p :: ps, c :: cs => if p = c then stripPrefix3 ps cs else some none

theorem stripPrefix3_fail : ∀ (m l : List Char), stripPrefix3 m l = some none →
    ∀ r, stripPrefixL m (l ++ r) = none
  | [], l, h => by cases h
  | _ :: _, [], h => by cases h
  | p :: ps, c :: cs, h => by
    intro r
    by_cases hpc : p = c
    · simp only [stripPrefix3, if_pos hpc] at h
      simp only [List.cons_append, stripPrefixL, if_pos hpc]
      exact stripPrefix3_fail ps cs h r
    · simp only [List.cons_append, stripPrefixL, if_neg hpc]

theorem stripPrefix3_ok : ∀ (m l after : List Char),
    stripPrefix3 m l = some (some after) →
    ∀ r, stripPrefixL m (l ++ r) = some (after ++ r)
  | [], l, after, h => by
    intro r
    simp only [stripPrefix3, Option.some.injEq] at h
    subst h
    rfl
  | _ :: _, [], after, h => by cases h
  | p :: ps, c :: cs, after, h => by
    intro r
    by_cases hpc : p = c
    · simp only [stripPrefix3, if_pos hpc] at h
      simp only [List.cons_append, stripPrefixL, if_pos hpc]
      exact stripPrefix3_ok ps cs after h r
    · simp only [stripPrefix3, if_neg hpc] at h
      cases h

theorem takeWhile_digits_append : ∀ (id tail : List Char),
    (∀ c ∈ id, c.isDigit = true) →
    (∀ c, tail.head? = some c → c.isDigit = false) →
    (id ++ tail).takeWhile Char.isDigit = id
  | [], tail, _, htail => by
    cases tail with
    | nil => rfl
    | cons c t =>
      simp only [List.nil_append, List.takeWhile_cons, htail c rfl,
        Bool.false_eq_true, if_false]
  | d :: ds, tail, hdig, htail => by
    simp only [List.cons_append, List.takeWhile_cons, hdig d (by simp), if_true]
    rw [takeWhile_digits_append ds tail (fun c hc => hdig c (by simp [hc])) htail]

theorem takeWhile_append_of_ne : ∀ (p : Char → Bool) (l r : List Char),
    (l.takeWhile p).length ≠ l.length →
    (l ++ r).takeWhile p = l.takeWhile p
  | p, [], r, h => by simp at h
  | p, c :: l, r, h => by
    by_cases hc : p c = true
    · simp only [List.takeWhile_cons, hc, if_true, List.length_cons] at h ⊢
      simp only [List.cons_append, List.takeWhile_cons, hc, if_true]
      rw [takeWhile_append_of_ne p l r (fun he => h (by omega))]
    · simp only [Bool.not_eq_true] at hc
      simp only [List.cons_append, List.takeWhile_cons, hc, Bool.false_eq_true,
        if_false]

/-- Decides, inside the window `l`, that the pattern `<marker>(\d+)` fails at
this position however `l` is extended to the right. -/
def lit1FailsWithin (marker l : List Char) : Bool :=
  match stripPrefix3 marker l with
  | some none => true
  | none => false
  | some (some after) =>
    match after with
    | [] => false
    | c :: _ => !c.isDigit

theorem lit1FailsWithin_spec (marker l : List Char)
    (h : lit1FailsWithin marker l = true) :
    ∀ r, tryLitDigitsAt marker (l ++ r) = none := by
  intro r
  unfold lit1FailsWithin at h
  rcases h3 : stripPrefix3 marker l with _ | o
  · rw [h3] at h; cases h
  · rcases o with _ | after
    · simp only [tryLitDigitsAt, stripPrefix3_fail marker l h3 r]
    · rw [h3] at h
      rcases after with _ | ⟨c, cs⟩
      · cases h
      · simp only [Bool.not_eq_true'] at h
        simp only [tryLitDigitsAt, stripPrefix3_ok marker l (c :: cs) h3 r,
          List.cons_append, List.takeWhile_cons, h, Bool.false_eq_true, if_false,
          List.isEmpty_nil, if_true]

/-- Decides, inside the window `l`, that the pattern
`tiktok\.com\/@[\w.-]+/video/(\d+)` fails at this position however `l` is
extended to the right. -/
def pat2FailsWithin (l : List Char) : Bool :=
  match stripPrefix3 "tiktok.com/@".toList l with
  | some none => true
  | none => false
  | some (some after) =>
    let w := after.takeWhile isWordDotDash
    if w.length = after.length then false
    else if w.isEmpty then true
    else
      match stripPrefix3 "/video/".toList (after.drop w.length) with
      | some none => true
      | none => false
      | some (some after2) =>
        match after2 with
        | [] => false
        | c :: _ => !c.isDigit

theorem pat2FailsWithin_spec (l : List Char)
    (h : pat2FailsWithin l = true) :
    ∀ r, tryPat2At (l ++ r) = none := by
  intro r
  unfold pat2FailsWithin at h
  rcases h3 : stripPrefix3 "tiktok.com/@".toList l with _ | o
  · rw [h3] at h; cases h
  · rcases o with _ | after
    · simp only [tryPat2At, stripPrefix3_fail _ l h3 r]
    · rw [h3] at h
      simp only at h
      by_cases hlen : (after.takeWhile isWordDotDash).length = after.length
      · rw [if_pos hlen] at h; cases h
      · rw [if_neg hlen] at h
        have htw : (after ++ r).takeWhile isWordDotDash =
            after.takeWhile isWordDotDash :=
          takeWhile_append_of_ne isWordDotDash after r hlen
        have hle : (after.takeWhile isWordDotDash).length ≤ after.length :=
          (List.takeWhile_sublist isWordDotDash).length_le
        have hdrop : (after ++ r).drop (after.takeWhile isWordDotDash).length =
            after.drop (after.takeWhile isWordDotDash).length ++ r := by
          rw [List.drop_append_eq_append_drop]
          have : (after.takeWhile isWordDotDash).length - after.length = 0 := by omega
          rw [this, List.drop_zero]
        by_cases hempty : (after.takeWhile isWordDotDash).isEmpty = true
        · rw [if_pos hempty] at h
          simp only [tryPat2At, stripPrefix3_ok _ l after h3 r, htw, hempty,
            if_true]
        · rw [if_neg hempty] at h
          rcases h3b : stripPrefix3 "/video/".toList
              (after.drop (after.takeWhile isWordDotDash).length) with _ | o2
          · rw [h3b] at h; cases h
          · rcases o2 with _ | after2
            · simp only [tryPat2At, stripPrefix3_ok _ l after h3 r, htw, hempty,
                Bool.false_eq_true, if_false, hdrop,
                stripPrefix3_fail _ _ h3b r]
            · rw [h3b] at h
              rcases after2 with _ | ⟨c, cs⟩
              · cases h
              · simp only [Bool.not_eq_true'] at h
                simp only [tryPat2At, stripPrefix3_ok _ l after h3 r, htw, hempty,
                  Bool.false_eq_true, if_false, hdrop,
                  stripPrefix3_ok _ _ (c :: cs) h3b r, List.cons_append,
                  List.takeWhile_cons, h, List.isEmpty_nil, if_true]

theorem scanOpt_append_none (f : List Char → Option (List Char)) :
    ∀ (l r : List Char), (∀ i, i < l.length → f (l.drop i ++ r) = none) →
      scanOpt f (l ++ r) = scanOpt f r
  | [], r, _ => rfl
  | c :: l, r, h => by
    have h0 : f ((c :: l) ++ r) = none := by simpa using h 0 (Nat.succ_pos _)
    simp only [List.cons_append] at h0 ⊢
    simp only [scanOpt, h0]
    exact scanOpt_append_none f l r (fun i hi => by
      simpa using h (i + 1) (Nat.succ_lt_succ hi))

theorem scanOpt_skip_all (f : List Char → Option (List Char)) :
    ∀ (l r : List Char), (∀ c ∈ l, ∀ s, f (c :: s) = none) →
      scanOpt f (l ++ r) = scanOpt f r
  | [], r, _ => rfl
  | c :: l, r, h => by
    have h0 : f (c :: (l ++ r)) = none := h c (by simp) (l ++ r)
    simp only [List.cons_append] at h0 ⊢
    simp only [scanOpt, h0]
    exact scanOpt_skip_all f l r (fun d hd s => h d (by simp [hd]) s)

theorem scanOpt_here (f : List Char → Option (List Char)) (l : List Char)
    (ds : List Char) (h : f l = some ds) (hne : l ≠ []) :
    scanOpt f l = some ds := by
  cases l with
  | nil => exact absurd rfl hne
  | cons c rest => simp [scanOpt, h]

theorem scanOpt_lit_skip_decide (marker l r : List Char)
    (h : (List.range l.length).all
      (fun i => lit1FailsWithin marker (l.drop i)) = true) :
    scanOpt (tryLitDigitsAt marker) (l ++ r) =
      scanOpt (tryLitDigitsAt marker) r := by
  apply scanOpt_append_none
  intro i hi
  exact lit1FailsWithin_spec marker (l.drop i)
    (by
      have := List.all_eq_true.mp h i (List.mem_range.mpr hi)
      simpa using this) r

theorem scanOpt_pat2_skip_decide (l r : List Char)
    (h : (List.range l.length).all (fun i => pat2FailsWithin (l.drop i)) = true) :
    scanOpt tryPat2At (l ++ r) = scanOpt tryPat2At r := by
  apply scanOpt_append_none
  intro i hi
  exact pat2FailsWithin_spec (l.drop i)
    (by
      have := List.all_eq_true.mp h i (List.mem_range.mpr hi)
      simpa using this) r

theorem tryLitDigitsAt_head_ne (mh : Char) (mt : List Char) (c : Char)
    (h : mh ≠ c) : ∀ s, tryLitDigitsAt (mh :: mt) (c :: s) = none := by
  intro s
  simp [tryLitDigitsAt, stripPrefixL, h]

theorem tryPat2At_head_ne (c : Char) (h : c ≠ 't') :
    ∀ s, tryPat2At (c :: s) = none := by
  intro s
  simp only [tryPat2At, stripPrefixL, String.toList]
  rw [if_neg (fun he => h he.symm)]

theorem ne_of_isDigit_ne (x c : Char) (hc : c.isDigit = true)
    (hx : x.isDigit = false) : x ≠ c := by
  intro he
  rw [he, hc] at hx
  cases hx

theorem ne_of_wdd_ne (x c : Char) (hc : isWordDotDash c = true)
    (hx : isWordDotDash x = false) : x ≠ c := by
  intro he
  rw [he, hc] at hx
  cases hx

/-- Expanded www-host URL shape `https://www.tiktok.com/@<user>/video/<id><tail>`
(`tail` is empty or a query string beginning with `?`). -/
def wwwUrlT (user id tail : List Char) : String :=
  ⟨"https://www.tiktok.com/@".toList ++
    (user ++ ("/video/".toList ++ (id ++ tail)))⟩

/-- Mobile-host URL shape `https://m.tiktok.com/v/<id>`. -/
def mobileUrl (id : List Char) : String :=
  ⟨"https://m.tiktok.com/v/".toList ++ id⟩

/-- Short-link URL shape `https://vm.tiktok.com/<code>`. -/
def shortUrl (code : List Char) : String :=
  ⟨"https://vm.tiktok.com/".toList ++ code⟩

theorem tryLit_video_head_ne (c : Char) (h : c ≠ '/') :
    ∀ s, tryLitDigitsAt "/video/".toList (c :: s) = none := by
  intro s
  exact tryLitDigitsAt_head_ne '/' "video/".toList c (fun he => h he.symm) s

theorem reSearch_www (user id tail : List Char)
    (hid : id ≠ []) (hdig : ∀ c ∈ id, c.isDigit = true)
    (huser : ∀ c ∈ user, isWordDotDash c = true)
    (htail : ∀ c, tail.head? = some c → c.isDigit = false) :
    reSearchDigits "/video/".toList
      ("https://www.tiktok.com/@".toList ++
        (user ++ ("/video/".toList ++ (id ++ tail)))) = some id := by
  unfold reSearchDigits
  rw [scanOpt_lit_skip_decide "/video/".toList "https://www.tiktok.com/@".toList _
    (by decide)]
  rw [scanOpt_skip_all _ user _
    (fun c hc s => tryLit_video_head_ne c
      (fun he => by
        have := huser c hc
        rw [he] at this
        exact absurd this (by decide)) s)]
  have hf : tryLitDigitsAt "/video/".toList
      ("/video/".toList ++ (id ++ tail)) = some id := by
    unfold tryLitDigitsAt
    rw [stripPrefixL_append_self]
    simp only [takeWhile_digits_append id tail hdig htail]
    rw [if_neg (by simp [hid])]
  exact scanOpt_here _ _ id hf (by simp)

theorem pat1_mobile_none (id : List Char) (hid : id ≠ [])
    (hdig : ∀ c ∈ id, c.isDigit = true) :
    reSearchDigits "/video/".toList
      ("https://m.tiktok.com/v/".toList ++ id) = none := by
  unfold reSearchDigits
  rw [scanOpt_append_none _ "https://m.tiktok.com/v/".toList id ?hpos]
  case hpos =>
    intro i hi
    have hlen : ("https://m.tiktok.com/v/".toList).length = 23 := rfl
    rw [hlen] at hi
    rcases id with _ | ⟨d, ds⟩
    · exact absurd rfl hid
    interval_cases i
    all_goals try { exact lit1FailsWithin_spec _ _ (by decide) _ }
    have hd : ('v' : Char) ≠ d :=
      ne_of_isDigit_ne 'v' d (hdig d (by simp)) (by decide)
    show tryLitDigitsAt "/video/".toList ('/' :: d :: ds) = none
    simp [tryLitDigitsAt, stripPrefixL, hd]
  rw [← List.append_nil id]
  rw [scanOpt_skip_all _ id []
    (fun c hc s => tryLit_video_head_ne c
      (Ne.symm (ne_of_isDigit_ne '/' c (hdig c hc) (by decide))) s)]
  rfl

theorem pat2_mobile_none (id : List Char)
    (hdig : ∀ c ∈ id, c.isDigit = true) :
    scanOpt tryPat2At ("https://m.tiktok.com/v/".toList ++ id) = none := by
  rw [scanOpt_pat2_skip_decide "https://m.tiktok.com/v/".toList id (by decide)]
  rw [← List.append_nil id]
  rw [scanOpt_skip_all _ id []
    (fun c hc s => tryPat2At_head_ne c
      (Ne.symm (ne_of_isDigit_ne 't' c (hdig c hc) (by decide))) s)]
  rfl

theorem pat3_mobile_some (id : List Char) (hid : id ≠ [])
    (hdig : ∀ c ∈ id, c.isDigit = true) :
    reSearchDigits ['v', '/'] ("https://m.tiktok.com/v/".toList ++ id) =
      some id := by
  unfold reSearchDigits
  show scanOpt (tryLitDigitsAt ['v', '/'])
    ("https://m.tiktok.com/".toList ++ (['v', '/'] ++ id)) = some id
  rw [scanOpt_lit_skip_decide ['v', '/'] "https://m.tiktok.com/".toList _
    (by decide)]
  have hf : tryLitDigitsAt ['v', '/'] (['v', '/'] ++ id) = some id := by
    unfold tryLitDigitsAt
    rw [stripPrefixL_append_self]
    have : (id ++ []).takeWhile Char.isDigit = id :=
      takeWhile_digits_append id [] hdig (fun c hc => by cases hc)
    rw [List.append_nil] at this
    simp only [this]
    rw [if_neg (by simp [hid])]
  exact scanOpt_here _ _ id hf (by simp)

theorem isPrefixOf_append_self : ∀ (l r : List Char), l.isPrefixOf (l ++ r) = true
  | [], _ => by simp [List.isPrefixOf]
  | c :: l, r => by simp [List.isPrefixOf, isPrefixOf_append_self l r]

theorem containsSub_cons_of (n : List Char) (c : Char) (s : List Char)
    (h : containsSub n s = true) : containsSub n (c :: s) = true := by
  simp [containsSub, h]

theorem containsSub_append_left (p n s : List Char)
    (h : containsSub n s = true) : containsSub n (p ++ s) = true := by
  induction p with
  | nil => exact h
  | cons c p ih => exact containsSub_cons_of n c (p ++ s) ih

theorem containsSub_self_append (n r : List Char) (hn : n ≠ []) :
    containsSub n (n ++ r) = true := by
  cases n with
  | nil => exact absurd rfl hn
  | cons c cs =>
    simp [containsSub, isPrefixOf_append_self]

theorem shortUrl_has_vm (code : List Char) :
    containsSub "vm.tiktok.com".toList (shortUrl code).toList = true := by
  have hcs : (shortUrl code).toList =
      "https://".toList ++ ("vm.tiktok.com".toList ++ ('/' :: code)) := rfl
  rw [hcs]
  exact containsSub_append_left _ _ _ (containsSub_self_append _ _ (by decide))

theorem extract_wwwT (expand : String → String) (user id tail : List Char)
    (hid : id ≠ []) (hdig : ∀ c ∈ id, c.isDigit = true)
    (huser : ∀ c ∈ user, isWordDotDash c = true)
    (htail : ∀ c, tail.head? = some c → c.isDigit = false)
    (hvm : containsSub "vm.tiktok.com".toList (wwwUrlT user id tail).toList = false)
    (hvt : containsSub "vt.tiktok.com".toList (wwwUrlT user id tail).toList = false) :
    extractVideoId expand (wwwUrlT user id tail) = some ⟨id⟩ := by
  unfold extractVideoId
  rw [hvm, hvt]
  rw [if_neg (by decide)]
  have hcs : (wwwUrlT user id tail).toList =
      "https://www.tiktok.com/@".toList ++
        (user ++ ("/video/".toList ++ (id ++ tail))) := rfl
  simp only [hcs, reSearch_www user id tail hid hdig huser htail]

theorem extract_mobile (expand : String → String) (id : List Char)
    (hid : id ≠ []) (hdig : ∀ c ∈ id, c.isDigit = true)
    (hvm : containsSub "vm.tiktok.com".toList (mobileUrl id).toList = false)
    (hvt : containsSub "vt.tiktok.com".toList (mobileUrl id).toList = false) :
    extractVideoId expand (mobileUrl id) = some ⟨id⟩ := by
  unfold extractVideoId
  rw [hvm, hvt]
  rw [if_neg (by decide)]
  have hcs : (mobileUrl id).toList =
      "https://m.tiktok.com/v/".toList ++ id := rfl
  simp only [hcs, pat1_mobile_none id hid hdig, pat2_mobile_none id hdig,
    pat3_mobile_some id hid hdig]

theorem extract_short (expand : String → String) (user id tail code : List Char)
    (hid : id ≠ []) (hdig : ∀ c ∈ id, c.isDigit = true)
    (huser : ∀ c ∈ user, isWordDotDash c = true)
    (htail : ∀ c, tail.head? = some c → c.isDigit = false)
    (hexp : expand (shortUrl code) = wwwUrlT user id tail) :
    extractVideoId expand (shortUrl code) = some ⟨id⟩ := by
  unfold extractVideoId
  rw [shortUrl_has_vm code]
  rw [if_pos (by simp)]
  rw [hexp]
  have hcs : (wwwUrlT user id tail).toList =
      "https://www.tiktok.com/@".toList ++
        (user ++ ("/video/".toList ++ (id ++ tail))) := rfl
  simp only [hcs, reSearch_www user id tail hid hdig huser htail]

/-- C8: surface-form invariance of the fingerprint.  For a video id (a
nonempty digit string) reachable as the expanded www URL (with or without a
trailing tracking query), as the mobile-host short path, or through a
short-link whose redirect resolves to the www URL, `extract_video_id`
returns the same id, hence the cache key (mp3 filename) for a fixed quality
is identical across all four surface forms.  The username consists of
`[\w.-]` characters and none of the non-short-link URLs contains a
short-link host substring. -/
theorem fingerprint_surface_form_invariant
    (expand : String → String) (user id q code : List Char) (quality : String)
    (hid : id ≠ []) (hdig : ∀ c ∈ id, c.isDigit = true)
    (huser : ∀ c ∈ user, isWordDotDash c = true)
    (hvm1 : containsSub "vm.tiktok.com".toList (wwwUrlT user id []).toList = false)
    (hvt1 : containsSub "vt.tiktok.com".toList (wwwUrlT user id []).toList = false)
    (hvm2 : containsSub "vm.tiktok.com".toList
      (wwwUrlT user id ('?' :: q)).toList = false)
    (hvt2 : containsSub "vt.tiktok.com".toList
      (wwwUrlT user id ('?' :: q)).toList = false)
    (hvm3 : containsSub "vm.tiktok.com".toList (mobileUrl id).toList = false)
    (hvt3 : containsSub "vt.tiktok.com".toList (mobileUrl id).toList = false)
    (hexp : expand (shortUrl code) = wwwUrlT user id []) :
    extractVideoId expand (wwwUrlT user id []) = some ⟨id⟩
    ∧ extractVideoId expand (wwwUrlT user id ('?' :: q)) = some ⟨id⟩
    ∧ extractVideoId expand (mobileUrl id) = some ⟨id⟩
    ∧ extractVideoId expand (shortUrl code) = some ⟨id⟩
    ∧ requestFingerprint expand (wwwUrlT user id []) quality =
        requestFingerprint expand (wwwUrlT user id ('?' :: q)) quality
    ∧ requestFingerprint expand (wwwUrlT user id []) quality =
        requestFingerprint expand (mobileUrl id) quality
    ∧ requestFingerprint expand (wwwUrlT user id []) quality =
        requestFingerprint expand (shortUrl code) quality := by
  have h1 := extract_wwwT expand user id [] hid hdig huser
    (fun c hc => by cases hc) hvm1 hvt1
  have h2 := extract_wwwT expand user id ('?' :: q) hid hdig huser
    (fun c hc => by
      have hq : c = '?' := (Option.some.inj hc).symm
      subst hq
      decide) hvm2 hvt2
  have h3 := extract_mobile expand id hid hdig hvm3 hvt3
  have h4 := extract_short expand user id [] code hid hdig huser
    (fun c hc => by cases hc) hexp
  refine ⟨h1, h2, h3, h4, ?_, ?_, ?_⟩ <;>
    simp [requestFingerprint, h1, h2, h3, h4]

/-- The video id of the concrete C8 scenario. -/
def c8id : List Char := "1234567890123456789".toList

/-- The username of the concrete C8 scenario. -/
def c8user : List Char := "alice".toList

/-- A redirect oracle mapping every short link to the expanded www URL of the
concrete C8 scenario. -/
def c8expand : String → String := fun _ => wwwUrlT c8user c8id []

/-- Witness for C8: at the concrete id 1234567890123456789, user alice,
tracking query utm_source=web and short code ZAbc, all four surface forms
yield the same fingerprint. -/
theorem fingerprint_surface_form_invariant_witness :
    extractVideoId c8expand (shortUrl "ZAbc".toList) = some ⟨c8id⟩
    ∧ requestFingerprint c8expand (wwwUrlT c8user c8id []) "192" =
        requestFingerprint c8expand (mobileUrl c8id) "192"
    ∧ requestFingerprint c8expand (wwwUrlT c8user c8id []) "192" =
        requestFingerprint c8expand
          (wwwUrlT c8user c8id ('?' :: "utm_source=web".toList)) "192" := by
  have h := fingerprint_surface_form_invariant c8expand c8user c8id
    "utm_source=web".toList "ZAbc".toList "192"
    (by decide) (by decide) (by decide) (by decide) (by decide) (by decide)
    (by decide) (by decide) (by decide) rfl
  exact ⟨h.2.2.2.1, h.2.2.2.2.2.1, h.2.2.2.2.1⟩

/-- A file of the temp directory as seen by `cleanup_old_files`: its path,
size in bytes, modification time and last-access time (the latter exists in
the filesystem but is never consulted by the code). -/
structure FileInfo where
  path : String
  size : Nat
  mtime : Nat
  atime : Nat
deriving DecidableEq, Repr

/-- Total size of a list of files. -/
def sumSizes (files : List FileInfo) : Nat := (files.map (·.size)).sum

/-- The sort key of `files_info.sort(key=lambda x: x[2])`: modification time
(Python's sort is stable, as is insertion sort). -/
def mtimeLE (a b : FileInfo) : Prop := a.mtime ≤ b.mtime

instance : DecidableRel mtimeLE := fun a b => Nat.decLe a.mtime b.mtime

instance : IsTotal FileInfo mtimeLE := ⟨fun a b => Nat.le_total a.mtime b.mtime⟩

instance : IsTrans FileInfo mtimeLE := ⟨fun _ _ _ => Nat.le_trans⟩

/-- The `files_info.sort(key=lambda x: x[2])` step. -/
def sortByMtime (files : List FileInfo) : List FileInfo :=
  files.insertionSort mtimeLE

/-- The capacity loop of `cleanup_old_files`: walk the mtime-sorted list,
removing each file and subtracting its size, stopping as soon as the running
total is at or below 90% of the ceiling (the float comparison
`total_size <= MAX_CACHE_SIZE_MB * 0.9 * 1024 * 1024` is the exact rational
`10 * total' ≤ 9 * (maxMB * 1024 * 1024)`).  Returns (removed, kept). -/
def phase1 (maxMB : Nat) : List FileInfo → Nat → List FileInfo × List FileInfo
  | [], _ => ([], [])
  | f :: rest, total =>
    let total' := total - f.size
    if 10 * total' ≤ 9 * (maxMB * 1024 * 1024) then ([f], rest)
    else
      let out := phase1 maxMB rest total'
      (f :: out.1, out.2)

/-- The expiry loop of `cleanup_old_files`: walk the same sorted listing and
remove each file older than the TTL.  A file already removed by the capacity
loop makes `os.remove` raise FileNotFoundError, which the surrounding
`except` swallows, aborting the remainder of the sweep. -/
def phase2 (now ttl : Nat) : List FileInfo → List FileInfo → List FileInfo
  | [], fs => fs
  | f :: rest, fs =>
    if ttl < now - f.mtime then
      if f ∈ fs then phase2 now ttl rest (fs.erase f)
      else fs
    else phase2 now ttl rest fs

/-- Embedding of `cleanup_old_files` from app.py: computes the total size,
sorts by mtime, runs the capacity loop when the ceiling is exceeded, then the
expiry loop.  Returns (surviving files, files removed by the capacity
loop). -/
def cleanupOldFiles (maxMB ttl now : Nat) (files : List FileInfo) :
    List FileInfo × List FileInfo :=
  let total := sumSizes files
  let sorted := sortByMtime files
  let out :=
    if maxMB * 1024 * 1024 < total then phase1 maxMB sorted total
    else ([], sorted)
  (phase2 now ttl sorted out.2, out.1)

theorem phase1_append (maxMB : Nat) : ∀ (l : List FileInfo) (total : Nat),
    (phase1 maxMB l total).1 ++ (phase1 maxMB l total).2 = l
  | [], _ => rfl
  | f :: rest, total => by
    unfold phase1
    by_cases h : 10 * (total - f.size) ≤ 9 * (maxMB * 1024 * 1024)
    · simp [h]
    · simp only [h, if_false]
      simp [phase1_append maxMB rest (total - f.size)]

theorem phase1_kept_bound (maxMB : Nat) : ∀ (l : List FileInfo) (total : Nat),
    total = sumSizes l →
    10 * sumSizes (phase1 maxMB l total).2 ≤ 9 * (maxMB * 1024 * 1024)
  | [], total, _ => by simp [phase1, sumSizes]
  | f :: rest, total, h => by
    unfold phase1
    have hrest : total - f.size = sumSizes rest := by
      simp only [sumSizes, List.map_cons, List.sum_cons] at h ⊢
      omega
    by_cases hc : 10 * (total - f.size) ≤ 9 * (maxMB * 1024 * 1024)
    · simp only [hc, if_true]
      rw [hrest] at hc
      exact hc
    · simp only [hc, if_false]
      exact phase1_kept_bound maxMB rest (total - f.size) hrest

theorem sumSizes_erase_le (f : FileInfo) : ∀ (fs : List FileInfo),
    sumSizes (fs.erase f) ≤ sumSizes fs
  | [] => le_refl _
  | g :: rest => by
    by_cases h : g = f
    · subst h
      rw [List.erase_cons_head]
      simp only [sumSizes, List.map_cons, List.sum_cons]
      omega
    · rw [List.erase_cons_tail (by simp [h])]
      simp only [sumSizes, List.map_cons, List.sum_cons]
      have := sumSizes_erase_le f rest
      simp only [sumSizes] at this
      omega

theorem phase2_sum_le (now ttl : Nat) : ∀ (l fs : List FileInfo),
    sumSizes (phase2 now ttl l fs) ≤ sumSizes fs
  | [], fs => le_refl _
  | f :: rest, fs => by
    unfold phase2
    by_cases hexp : ttl < now - f.mtime
    · simp only [hexp, if_true]
      by_cases hmem : f ∈ fs
      · simp only [hmem, if_true]
        exact le_trans (phase2_sum_le now ttl rest (fs.erase f))
          (sumSizes_erase_le f fs)
      · simp only [hmem, if_false]
        exact le_refl _
    · simp only [hexp, if_false]
      exact phase2_sum_le now ttl rest fs

theorem phase2_subset (now ttl : Nat) : ∀ (l fs : List FileInfo),
    ∀ x ∈ phase2 now ttl l fs, x ∈ fs
  | [], fs => fun x hx => hx
  | f :: rest, fs => by
    unfold phase2
    by_cases hexp : ttl < now - f.mtime
    · simp only [hexp, if_true]
      by_cases hmem : f ∈ fs
      · simp only [hmem, if_true]
        intro x hx
        exact List.erase_subset f fs (phase2_subset now ttl rest (fs.erase f) x hx)
      · simp only [hmem, if_false]
        exact fun x hx => hx
    · simp only [hexp, if_false]
      exact phase2_subset now ttl rest fs

theorem phase2_remove_only_expired (now ttl : Nat) : ∀ (l fs : List FileInfo)
    (f : FileInfo), f ∈ fs → f ∉ phase2 now ttl l fs → ttl < now - f.mtime
  | [], fs, f => fun hin hout => absurd hin hout
  | g :: rest, fs, f => by
    intro hin hout
    unfold phase2 at hout
    by_cases hexp : ttl < now - g.mtime
    · simp only [hexp, if_true] at hout
      by_cases hmem : g ∈ fs
      · simp only [hmem, if_true] at hout
        by_cases hfg : f = g
        · subst hfg; exact hexp
        · exact phase2_remove_only_expired now ttl rest (fs.erase g) f
            ((List.mem_erase_of_ne hfg).mpr hin) hout
      · simp only [hmem, if_false] at hout
        exact absurd hin hout
    · simp only [hexp, if_false] at hout
      exact phase2_remove_only_expired now ttl rest fs f hin hout

theorem sumSizes_perm {l₁ l₂ : List FileInfo} (h : l₁.Perm l₂) :
    sumSizes l₁ = sumSizes l₂ := by
  simpa [sumSizes] using (h.map (fun x => x.size)).sum_eq

theorem sortByMtime_perm (files : List FileInfo) :
    (sortByMtime files).Perm files :=
  List.perm_insertionSort mtimeLE files

theorem sortByMtime_sorted (files : List FileInfo) :
    (sortByMtime files).Sorted mtimeLE :=
  List.sorted_insertionSort mtimeLE files

/-- A large cached file created first but accessed most recently. -/
def c7fileA : FileInfo := ⟨"a.mp3", 3000 * 1024 * 1024, 0, 100⟩

/-- A large cached file created later but accessed before `c7fileA`. -/
def c7fileB : FileInfo := ⟨"b.mp3", 3000 * 1024 * 1024, 50, 50⟩

/-- C7 counterexample: the capacity sweep orders by MODIFICATION time, not by
last access.  With the ceiling exceeded, the file accessed most recently
(atime 100) is evicted because its mtime is oldest, while the file whose last
access is older (atime 50) survives — contradicting "removes entries
oldest-by-last-access first". -/
theorem eviction_not_by_last_access_counterexample :
    MAX_CACHE_SIZE_MB * 1024 * 1024 < sumSizes [c7fileA, c7fileB]
    ∧ (cleanupOldFiles MAX_CACHE_SIZE_MB CACHE_EXPIRATION 200
        [c7fileA, c7fileB]).2 = [c7fileA]
    ∧ (cleanupOldFiles MAX_CACHE_SIZE_MB CACHE_EXPIRATION 200
        [c7fileA, c7fileB]).1 = [c7fileB]
    ∧ c7fileB.atime < c7fileA.atime := by
  decide

/-- C7 (amended): when the aggregate size exceeds the ceiling, the eviction
sweep removes entries oldest-by-MODIFICATION-time first (last access plays no
role) until aggregate usage is at or below the 90% watermark; and an entry
removed by the sweep either was removed by the capacity loop or had exceeded
its TTL (no entry is removed for age before its TTL has elapsed). -/
theorem eviction_by_mtime_until_watermark (maxMB ttl now : Nat)
    (files : List FileInfo) :
    (maxMB * 1024 * 1024 < sumSizes files →
      10 * sumSizes (cleanupOldFiles maxMB ttl now files).1 ≤
        9 * (maxMB * 1024 * 1024))
    ∧ (∀ r ∈ (cleanupOldFiles maxMB ttl now files).2,
        ∀ k ∈ (cleanupOldFiles maxMB ttl now files).1, r.mtime ≤ k.mtime)
    ∧ (∀ f ∈ files, f ∉ (cleanupOldFiles maxMB ttl now files).1 →
        f ∈ (cleanupOldFiles maxMB ttl now files).2 ∨ ttl < now - f.mtime) := by
  have hperm := sortByMtime_perm files
  have hsum : sumSizes (sortByMtime files) = sumSizes files := sumSizes_perm hperm
  by_cases hover : maxMB * 1024 * 1024 < sumSizes files
  · have hclean : cleanupOldFiles maxMB ttl now files =
        (phase2 now ttl (sortByMtime files)
          (phase1 maxMB (sortByMtime files) (sumSizes files)).2,
         (phase1 maxMB (sortByMtime files) (sumSizes files)).1) := by
      simp only [cleanupOldFiles]
      rw [if_pos hover]
    rw [hclean]
    refine ⟨?_, ?_, ?_⟩
    · intro _
      calc 10 * sumSizes (phase2 now ttl (sortByMtime files)
            (phase1 maxMB (sortByMtime files) (sumSizes files)).2)
          ≤ 10 * sumSizes (phase1 maxMB (sortByMtime files) (sumSizes files)).2 :=
            Nat.mul_le_mul_left 10 (phase2_sum_le now ttl _ _)
        _ ≤ 9 * (maxMB * 1024 * 1024) :=
            phase1_kept_bound maxMB (sortByMtime files) (sumSizes files) hsum.symm
    · intro r hr k hk
      have hksub : k ∈ (phase1 maxMB (sortByMtime files) (sumSizes files)).2 :=
        phase2_subset now ttl _ _ k hk
      have hsorted := sortByMtime_sorted files
      rw [← phase1_append maxMB (sortByMtime files) (sumSizes files)] at hsorted
      exact (List.pairwise_append.mp hsorted).2.2 r hr k hksub
    · intro f hf hnot
      have hfs : f ∈ sortByMtime files := hperm.mem_iff.mpr hf
      rw [← phase1_append maxMB (sortByMtime files) (sumSizes files)] at hfs
      rcases List.mem_append.mp hfs with hrem | hkept
      · exact Or.inl hrem
      · exact Or.inr (phase2_remove_only_expired now ttl _ _ f hkept hnot)
  · have hclean : cleanupOldFiles maxMB ttl now files =
        (phase2 now ttl (sortByMtime files) (sortByMtime files), []) := by
      simp only [cleanupOldFiles]
      rw [if_neg hover]
    rw [hclean]
    refine ⟨fun h => absurd h hover, ?_, ?_⟩
    · intro r hr
      cases hr
    · intro f hf hnot
      exact Or.inr (phase2_remove_only_expired now ttl _ _ f
        (hperm.mem_iff.mpr hf) hnot)

/-- Witness for C7 (amended): on the concrete over-capacity state the result
is back under the watermark, and the evicted entry is the mtime-oldest. -/
theorem eviction_by_mtime_until_watermark_witness :
    10 * sumSizes (cleanupOldFiles MAX_CACHE_SIZE_MB CACHE_EXPIRATION 200
        [c7fileA, c7fileB]).1 ≤ 9 * (MAX_CACHE_SIZE_MB * 1024 * 1024)
    ∧ (c7fileA ∈ (cleanupOldFiles MAX_CACHE_SIZE_MB CACHE_EXPIRATION 200
        [c7fileA, c7fileB]).2 ∨ CACHE_EXPIRATION < 200 - c7fileA.mtime) := by
  have h := eviction_by_mtime_until_watermark MAX_CACHE_SIZE_MB CACHE_EXPIRATION
    200 [c7fileA, c7fileB]
  exact ⟨h.1 (by decide), h.2.2 c7fileA (by decide) (by decide)⟩

/-- Phases of one request thread inside `get_tiktok_video` for a fixed
fingerprint with no pre-existing cache entry (the download method and ffmpeg
are assumed to succeed; timing is what matters here).
`start`: about to perform the cache check; `lockCheck`: about to take
`active_downloads_lock` and inspect the registry; `waiting n`: inside the
bounded polling loop (holding the lock), `n` polls remaining; `download0`:
registered, about to call the download method (whose `lru_cache` is consulted
first); `download1`: executing the method body; `converting`: running ffmpeg
and writing the mp3; `deregistering`: in the `finally` block, about to take
the lock and deregister; `done joined`: finished (`joined` = served by
observing the artifact rather than producing it). -/
inductive TPhase where
  | start
  | lockCheck
  | waiting (polls : Fin 11)
  | download0
  | download1
  | converting
  | deregistering
  | done (joined : Bool)
deriving DecidableEq, Repr

/-- Global state of the two-requester model: both thread phases, the holder
of `active_downloads_lock` (`some true` = thread 1, `some false` = thread 2),
whether the fingerprint is registered in `active_downloads`, whether the mp3
exists with positive size, whether the `lru_cache` already stores the method
result, and per-thread ghosts recording that the thread executed the download
body / fell out of the wait loop. -/
structure CState where
  ph1 : TPhase
  ph2 : TPhase
  lock : Option Bool
  active : Bool
  fileReady : Bool
  methodDone : Bool
  exec1 : Bool
  exec2 : Bool
  timedOut1 : Bool
  timedOut2 : Bool
deriving DecidableEq, Repr

/-- One thread's private slice of the state. -/
structure TView where
  ph : TPhase
  exec : Bool
  timedOut : Bool
deriving DecidableEq, Repr

/-- The shared slice of the state as seen by one thread. -/
structure SView where
  lockMine : Bool
  lockOther : Bool
  active : Bool
  fileReady : Bool
  methodDone : Bool
deriving DecidableEq, Repr

/-- One atomic step of a single thread, mirroring `get_tiktok_video`: the
lock-free cache check; the critical section that either registers the id (when
absent) or enters the polling wait still holding the lock; the poll that joins
as an observer when the file appears and otherwise, after the 10th poll,
re-registers and proceeds as an independent run; the `lru_cache` consultation
(a stored result skips the body); the body execution; the transcode that
publishes the artifact; and the `finally` deregistration (needs the lock).  A
step that needs the busy lock leaves the state unchanged (blocked). -/
def threadStep (v : TView) (sh : SView) : TView × SView :=
  match v.ph with
  | .start =>
    if sh.fileReady then ({ v with ph := .done true }, sh)
    else ({ v with ph := .lockCheck }, sh)
  | .lockCheck =>
    if sh.lockMine || sh.lockOther then (v, sh)
    else if sh.active then
      ({ v with ph := .waiting 10 }, { sh with lockMine := true })
    else ({ v with ph := .download0 }, { sh with active := true })
  | .waiting n =>
    if n.val = 0 then
      ({ v with ph := .download0, timedOut := true },
        { sh with lockMine := false, active := true })
    else if sh.fileReady then ({ v with ph := .done true }, { sh with lockMine := false })
    else ({ v with ph := .waiting ⟨n.val - 1,
        Nat.lt_of_le_of_lt (Nat.sub_le _ _) n.isLt⟩ }, sh)
  | .download0 =>
    if sh.methodDone then ({ v with ph := .converting }, sh)
    else ({ v with ph := .download1, exec := true }, sh)
  | .download1 => ({ v with ph := .converting }, { sh with methodDone := true })
  | .converting => ({ v with ph := .deregistering }, { sh with fileReady := true })
  | .deregistering =>
    if sh.lockMine || sh.lockOther then (v, sh)
    else ({ v with ph := .done false }, { sh with active := false })
  | .done _ => (v, sh)

/-- Rebuilding the lock holder from one thread's view (`me` names the
stepping thread). -/
def mkLock (me : Bool) (lockMine lockOther : Bool) : Option Bool :=
  if lockMine then some me else if lockOther then some (!me) else none

/-- Scheduling one step of thread 1 (`t = true`) or thread 2 (`t = false`). -/
def applyStep (t : Bool) (s : CState) : CState :=
  match t with
  | true =>
    let out := threadStep ⟨s.ph1, s.exec1, s.timedOut1⟩
      ⟨s.lock == some true, s.lock == some false, s.active, s.fileReady, s.methodDone⟩
    { ph1 := out.1.ph, ph2 := s.ph2,
      lock := mkLock true out.2.lockMine out.2.lockOther,
      active := out.2.active, fileReady := out.2.fileReady,
      methodDone := out.2.methodDone,
      exec1 := out.1.exec, exec2 := s.exec2,
      timedOut1 := out.1.timedOut, timedOut2 := s.timedOut2 }
  | false =>
    let out := threadStep ⟨s.ph2, s.exec2, s.timedOut2⟩
      ⟨s.lock == some false, s.lock == some true, s.active, s.fileReady, s.methodDone⟩
    { ph1 := s.ph1, ph2 := out.1.ph,
      lock := mkLock false out.2.lockMine out.2.lockOther,
      active := out.2.active, fileReady := out.2.fileReady,
      methodDone := out.2.methodDone,
      exec1 := s.exec1, exec2 := out.1.exec,
      timedOut1 := s.timedOut1, timedOut2 := out.1.timedOut }

/-- Two simultaneous requests with the same fingerprint, no cache entry, no
memoised method result, nothing registered. -/
def initState : CState :=
  ⟨.start, .start, none, false, false, false, false, false, false, false⟩

/-- Executing a schedule (an interleaving of the two threads). -/
def run (sched : List Bool) : CState :=
  sched.foldl (fun s t => applyStep t s) initState

/-- Number of Acquirer (download-body) invocations performed in the run: each
thread's body runs at most once along its linear phase progression, so the
count is the sum of the per-thread execution ghosts. -/
def downloadCount (s : CState) : Nat :=
  (if s.exec1 then 1 else 0) + (if s.exec2 then 1 else 0)

/-- Phases in which a thread is running its own pipeline execution
(registered; downloading, transcoding or deregistering). -/
def inWork : TPhase → Bool
  | .download0 | .download1 | .converting | .deregistering => true
  | _ => false

/-- Phases before the thread could have executed the download body. -/
def preDl : TPhase → Bool
  | .start | .lockCheck | .waiting _ | .download0 => true
  | _ => false

/-- Phases before the thread could have timed out of the wait loop. -/
def preWork : TPhase → Bool
  | .start | .lockCheck | .waiting _ => true
  | _ => false

/-- Inductive invariant of the two-requester model.  The conjuncts: a
duplicate download implies some thread exhausted its bounded wait (C); a
thread that has not yet passed the method call has not executed it (E) nor
timed out while still before its work phase (T); an observer that joined
never downloaded nor timed out (J); an executed download is either still in
the method body or its result is memoised (N); two concurrently running
pipeline executions require a timeout (O); and when the registry is clear
while a non-timed-out thread is mid-work, the other thread has completed a
full pipeline run (R). -/
def Inv (s : CState) : Prop :=
  (s.exec1 = true → s.exec2 = true → s.timedOut1 = true ∨ s.timedOut2 = true)
  ∧ (preDl s.ph1 = true → s.exec1 = false)
  ∧ (preDl s.ph2 = true → s.exec2 = false)
  ∧ (preWork s.ph1 = true → s.timedOut1 = false)
  ∧ (preWork s.ph2 = true → s.timedOut2 = false)
  ∧ (s.ph1 = .done true → s.exec1 = false ∧ s.timedOut1 = false)
  ∧ (s.ph2 = .done true → s.exec2 = false ∧ s.timedOut2 = false)
  ∧ (s.exec1 = true → s.ph1 = .download1 ∨ s.methodDone = true)
  ∧ (s.exec2 = true → s.ph2 = .download1 ∨ s.methodDone = true)
  ∧ ¬(inWork s.ph1 = true ∧ inWork s.ph2 = true ∧
      s.timedOut1 = false ∧ s.timedOut2 = false)
  ∧ (s.active = false → inWork s.ph1 = true → s.timedOut1 = false →
      s.ph2 = .done false)
  ∧ (s.active = false → inWork s.ph2 = true → s.timedOut2 = false →
      s.ph1 = .done false)

/-- Swapping the two threads' roles. -/
def swapState (s : CState) : CState :=
  ⟨s.ph2, s.ph1, s.lock.map (fun b => !b), s.active, s.fileReady, s.methodDone,
    s.exec2, s.exec1, s.timedOut2, s.timedOut1⟩

theorem Inv_swap (s : CState) : Inv (swapState s) ↔ Inv s := by
  simp only [Inv, swapState]
  constructor
  · rintro ⟨hC, hE1, hE2, hT1, hT2, hJ1, hJ2, hN1, hN2, hO, hR1, hR2⟩
    exact ⟨fun h1 h2 => (hC h2 h1).symm, hE2, hE1, hT2, hT1, hJ2, hJ1, hN2, hN1,
      fun ⟨w1, w2, x1, x2⟩ => hO ⟨w2, w1, x2, x1⟩, hR2, hR1⟩
  · rintro ⟨hC, hE1, hE2, hT1, hT2, hJ1, hJ2, hN1, hN2, hO, hR1, hR2⟩
    exact ⟨fun h1 h2 => (hC h2 h1).symm, hE2, hE1, hT2, hT1, hJ2, hJ1, hN2, hN1,
      fun ⟨w1, w2, x1, x2⟩ => hO ⟨w2, w1, x2, x1⟩, hR2, hR1⟩

theorem mkLock_map_not (x y : Bool) :
    (mkLock true x y).map (fun b => !b) = mkLock false x y := by
  cases x <;> cases y <;> rfl

theorem beq_map_not_some_true (lk : Option Bool) :
    ((lk.map (fun b => !b)) == some true) = (lk == some false) := by
  cases lk with
  | none => rfl
  | some b => cases b <;> rfl

theorem beq_map_not_some_false (lk : Option Bool) :
    ((lk.map (fun b => !b)) == some false) = (lk == some true) := by
  cases lk with
  | none => rfl
  | some b => cases b <;> rfl

theorem applyStep_swap (s : CState) :
    applyStep false s = swapState (applyStep true (swapState s)) := by
  obtain ⟨p1, p2, lk, a, f, m, e1, e2, t1, t2⟩ := s
  simp only [applyStep, swapState, beq_map_not_some_true, beq_map_not_some_false,
    mkLock_map_not]

/-- Introduction form of `Inv` with one argument per conjunct. -/
theorem invIntro {s : CState}
    (hC : s.exec1 = true → s.exec2 = true → s.timedOut1 = true ∨ s.timedOut2 = true)
    (hE1 : preDl s.ph1 = true → s.exec1 = false)
    (hE2 : preDl s.ph2 = true → s.exec2 = false)
    (hT1 : preWork s.ph1 = true → s.timedOut1 = false)
    (hT2 : preWork s.ph2 = true → s.timedOut2 = false)
    (hJ1 : s.ph1 = .done true → s.exec1 = false ∧ s.timedOut1 = false)
    (hJ2 : s.ph2 = .done true → s.exec2 = false ∧ s.timedOut2 = false)
    (hN1 : s.exec1 = true → s.ph1 = .download1 ∨ s.methodDone = true)
    (hN2 : s.exec2 = true → s.ph2 = .download1 ∨ s.methodDone = true)
    (hO : ¬(inWork s.ph1 = true ∧ inWork s.ph2 = true ∧
      s.timedOut1 = false ∧ s.timedOut2 = false))
    (hR1 : s.active = false → inWork s.ph1 = true → s.timedOut1 = false →
      s.ph2 = .done false)
    (hR2 : s.active = false → inWork s.ph2 = true → s.timedOut2 = false →
      s.ph1 = .done false) : Inv s :=
  ⟨hC, hE1, hE2, hT1, hT2, hJ1, hJ2, hN1, hN2, hO, hR1, hR2⟩

theorem noTF {b : Bool} {C : Prop} (h1 : b = true) (h2 : b = false) : C :=
  absurd (h1.symm.trans h2) (by decide)

theorem inv_preserved_one (s : CState) (h : Inv s) : Inv (applyStep true s) := by
  obtain ⟨p1, p2, lk, a, f, m, e1, e2, t1, t2⟩ := s
  simp only [Inv] at h
  obtain ⟨hC, hE1, hE2, hT1, hT2, hJ1, hJ2, hN1, hN2, hO, hR1, hR2⟩ := h
  cases p1 with
  | start =>
    cases f
    · exact invIntro (hC) (fun _ => hE1 rfl) (hE2) (fun _ => hT1 rfl) (hT2) (fun hx => nomatch hx) (hJ2) (fun he => noTF he (hE1 rfl)) (hN2) (fun ⟨w1, _, _, _⟩ => nomatch w1) (fun _ w1 _ => nomatch w1) (fun ha w2 x2 => nomatch (hR2 ha w2 x2))
    · exact invIntro (hC) (fun hx => nomatch hx) (hE2) (fun hx => nomatch hx) (hT2) (fun _ => ⟨hE1 rfl, hT1 rfl⟩) (hJ2) (fun he => noTF he (hE1 rfl)) (hN2) (fun ⟨w1, _, _, _⟩ => nomatch w1) (fun _ w1 _ => nomatch w1) (fun ha w2 x2 => nomatch (hR2 ha w2 x2))
  | lockCheck =>
    cases lk with
    | some b =>
      cases b
      · exact invIntro hC hE1 hE2 hT1 hT2 hJ1 hJ2 hN1 hN2 hO hR1 hR2
      · exact invIntro hC hE1 hE2 hT1 hT2 hJ1 hJ2 hN1 hN2 hO hR1 hR2
    | none =>
      cases a
      · -- registry empty: register and proceed
        exact invIntro (hC) (fun _ => hE1 rfl) (hE2) (fun hx => nomatch hx) (hT2) (fun hx => nomatch hx) (hJ2) (fun he => noTF he (hE1 rfl)) (hN2) (fun ⟨_, w2, _, x2⟩ => nomatch (hR2 rfl w2 x2)) (fun ha _ _ => nomatch ha) (fun ha _ _ => nomatch ha)
      · -- registry occupied: enter the bounded wait holding the lock
        exact invIntro (hC) (fun _ => hE1 rfl) (hE2) (fun _ => hT1 rfl) (hT2) (fun hx => nomatch hx) (hJ2) (fun he => noTF he (hE1 rfl)) (hN2) (fun ⟨w1, _, _, _⟩ => nomatch w1) (fun ha _ _ => nomatch ha) (fun ha _ _ => nomatch ha)
  | waiting n =>
    by_cases hn : n.val = 0
    · -- poll budget exhausted: time out, re-register and proceed
      simp only [applyStep, threadStep, if_pos hn]
      exact invIntro (fun _ _ => Or.inl rfl) (fun _ => hE1 rfl) (hE2) (fun hx => nomatch hx) (hT2) (fun hx => nomatch hx) (hJ2) (fun he => noTF he (hE1 rfl)) (hN2) (fun ⟨_, _, x1, _⟩ => nomatch x1) (fun ha _ _ => nomatch ha) (fun ha _ _ => nomatch ha)
    · cases f
      · -- artifact not there yet: poll again
        simp only [applyStep, threadStep, if_neg hn]
        exact invIntro (hC) (fun _ => hE1 rfl) (hE2) (fun _ => hT1 rfl) (hT2) (fun hx => nomatch hx) (hJ2) (fun he => noTF he (hE1 rfl)) (hN2) (fun ⟨w1, _, _, _⟩ => nomatch w1) (fun _ w1 _ => nomatch w1) (fun ha w2 x2 => nomatch (hR2 ha w2 x2))
      · -- artifact appeared: join as an observer
        simp only [applyStep, threadStep, if_neg hn]
        exact invIntro (hC) (fun hx => nomatch hx) (hE2) (fun hx => nomatch hx) (hT2) (fun _ => ⟨hE1 rfl, hT1 rfl⟩) (hJ2) (fun he => noTF he (hE1 rfl)) (hN2) (fun ⟨w1, _, _, _⟩ => nomatch w1) (fun _ w1 _ => nomatch w1) (fun ha w2 x2 => nomatch (hR2 ha w2 x2))
  | download0 =>
    cases m
    · -- lru_cache miss: execute the download body
      refine invIntro ?_ (fun hx => nomatch hx) hE2 (fun hx => nomatch hx) hT2
        (fun hx => nomatch hx) hJ2 (fun _ => Or.inl rfl) hN2
        (fun ⟨_, w2, x1, x2⟩ => hO ⟨rfl, w2, x1, x2⟩)
        (fun ha _ x1 => hR1 ha rfl x1)
        (fun ha w2 x2 => nomatch (hR2 ha w2 x2))
      intro _ he2
      rcases hN2 he2 with hp2 | hm
      · cases t1
        · cases t2
          · exact absurd ⟨rfl, by rw [hp2]; rfl, rfl, rfl⟩ hO
          · exact Or.inr rfl
        · exact Or.inl rfl
      · exact nomatch hm
    · -- lru_cache hit: skip the body, go straight to the transcode
      exact invIntro (hC) (fun hx => nomatch hx) (hE2) (fun hx => nomatch hx) (hT2) (fun hx => nomatch hx) (hJ2) (fun _ => Or.inr rfl) (hN2) (fun ⟨_, w2, x1, x2⟩ => hO ⟨rfl, w2, x1, x2⟩) (fun ha _ x1 => hR1 ha rfl x1) (fun ha w2 x2 => nomatch (hR2 ha w2 x2))
  | download1 =>
    exact invIntro (hC) (fun hx => nomatch hx) (hE2) (fun hx => nomatch hx) (hT2) (fun hx => nomatch hx) (hJ2) (fun _ => Or.inr rfl) (fun _ => Or.inr rfl) (fun ⟨_, w2, x1, x2⟩ => hO ⟨rfl, w2, x1, x2⟩) (fun ha _ x1 => hR1 ha rfl x1) (fun ha w2 x2 => nomatch (hR2 ha w2 x2))
  | converting =>
    exact invIntro (hC) (fun hx => nomatch hx) (hE2) (fun hx => nomatch hx) (hT2) (fun hx => nomatch hx) (hJ2) (fun he => (hN1 he).elim (fun hx => nomatch hx) Or.inr) (hN2) (fun ⟨_, w2, x1, x2⟩ => hO ⟨rfl, w2, x1, x2⟩) (fun ha _ x1 => hR1 ha rfl x1) (fun ha w2 x2 => nomatch (hR2 ha w2 x2))
  | deregistering =>
    cases lk with
    | some b =>
      cases b
      · exact invIntro hC hE1 hE2 hT1 hT2 hJ1 hJ2 hN1 hN2 hO hR1 hR2
      · exact invIntro hC hE1 hE2 hT1 hT2 hJ1 hJ2 hN1 hN2 hO hR1 hR2
    | none =>
      exact invIntro (hC) (fun hx => nomatch hx) (hE2) (fun hx => nomatch hx) (hT2) (fun hx => nomatch TPhase.done.inj hx) (hJ2) (fun he => (hN1 he).elim (fun hx => nomatch hx) Or.inr) (hN2) (fun ⟨w1, _, _, _⟩ => nomatch w1) (fun _ w1 _ => nomatch w1) (fun _ _ _ => rfl)
  | done j =>
    exact invIntro hC hE1 hE2 hT1 hT2 hJ1 hJ2 hN1 hN2 hO hR1 hR2

theorem inv_preserved (t : Bool) (s : CState) (h : Inv s) : Inv (applyStep t s) := by
  cases t
  · rw [applyStep_swap]
    exact (Inv_swap _).mp (inv_preserved_one (swapState s) ((Inv_swap s).mpr h))
  · exact inv_preserved_one s h

theorem inv_init : Inv initState :=
  invIntro (fun hx _ => nomatch hx) (fun _ => rfl) (fun _ => rfl) (fun _ => rfl)
    (fun _ => rfl) (fun hx => nomatch hx) (fun hx => nomatch hx)
    (fun hx => nomatch hx) (fun hx => nomatch hx)
    (fun hw => nomatch hw.1) (fun _ w1 _ => nomatch w1)
    (fun _ w2 _ => nomatch w2)

theorem inv_run (sched : List Bool) : Inv (run sched) := by
  suffices hgen : ∀ (s : CState), Inv s →
      Inv (sched.foldl (fun s t => applyStep t s) s) by
    exact hgen initState inv_init
  induction sched with
  | nil => exact fun s hs => hs
  | cons t rest ih =>
    intro s hs
    exact ih (applyStep t s) (inv_preserved t s hs)

theorem tryMethods_result_canonical (orc : Oracles) (vid q : String) :
    ∀ (idxs : List Nat) (st : PipeState),
      (tryMethods orc vid q idxs st).result = none
      ∨ (tryMethods orc vid q idxs st).result = some (mp3Path vid q)
  | [], _ => Or.inl rfl
  | i :: rest, st => by
    unfold tryMethods
    rcases invokeMethod orc i vid st with ⟨dres, st₁, exec⟩
    rcases dres with _ | sz
    · simpa using tryMethods_result_canonical orc vid q rest st₁
    · rcases hc : orc.convRun i with _ | msz
      · simpa [hc] using tryMethods_result_canonical orc vid q rest st₁
      · simp [hc]

/-- Schedule in which thread 1 registers and starts downloading, then thread
2 misses the cache, finds the id in flight, waits out all ten polls (the
artifact never appears) and proceeds as an independent run, downloading
again. -/
def dupSched : List Bool := [true, true, true] ++ List.replicate 14 false

/-- Schedule in which thread 1 completes the pipeline while thread 2 waits,
so thread 2 observes the artifact and joins. -/
def joinSched : List Bool :=
  [true, true, false, false, true, true, true, false, true]

/-- C1 counterexample: starting from no cache entry, the schedule `dupSched`
drives the two simultaneous requests for the same fingerprint to TWO
download-body executions running concurrently (thread 2's bounded 5-second
wait expires while thread 1 is still downloading) — contradicting "exactly
one Acquirer invocation", "at most one pipeline execution per fingerprint
runs concurrently" and "never triggering duplicate downloads". -/
theorem inflight_dedup_counterexample :
    initState.fileReady = false
    ∧ downloadCount (run dupSched) = 2
    ∧ inWork (run dupSched).ph1 = true
    ∧ inWork (run dupSched).ph2 = true
    ∧ (run dupSched).timedOut2 = true := by
  decide

/-- C1 (amended): under every interleaving of two simultaneous requests with
the same fingerprint and no cache entry, at most two downloads happen; a
duplicate download occurs ONLY when a request exhausted its bounded in-flight
wait (10 polls) without the artifact appearing; two pipeline executions run
concurrently only in that case; a request that joins as an observer performs
no download; a waiting request with polls remaining joins as soon as the
artifact exists; and (in the sequential pipeline model) every successful
caller receives the same canonical artifact path `mp3Path vid quality`. -/
theorem inflight_dedup_bounded_wait (sched : List Bool) :
    downloadCount (run sched) ≤ 2
    ∧ (downloadCount (run sched) = 2 →
        (run sched).timedOut1 = true ∨ (run sched).timedOut2 = true)
    ∧ (inWork (run sched).ph1 = true → inWork (run sched).ph2 = true →
        (run sched).timedOut1 = true ∨ (run sched).timedOut2 = true)
    ∧ ((run sched).ph1 = .done true → (run sched).exec1 = false)
    ∧ ((run sched).ph2 = .done true → (run sched).exec2 = false)
    ∧ (∀ n : Fin 11, n.val ≠ 0 → (run sched).ph2 = .waiting n →
        (run sched).fileReady = true →
        (applyStep false (run sched)).ph2 = .done true)
    ∧ (∀ (orc : Oracles) (url q vid : String) (st : PipeState),
        extractVideoId orc.expand url = some vid →
        (getTiktokVideo orc url q st).result = none
        ∨ (getTiktokVideo orc url q st).result = some (mp3Path vid q)) := by
  obtain ⟨hC, hE1, hE2, hT1, hT2, hJ1, hJ2, hN1, hN2, hO, hR1, hR2⟩ :=
    inv_run sched
  refine ⟨?_, ?_, ?_, fun hj => (hJ1 hj).1, fun hj => (hJ2 hj).1, ?_, ?_⟩
  · rcases he1 : (run sched).exec1 with _ | _ <;>
      rcases he2 : (run sched).exec2 with _ | _ <;>
      simp [downloadCount, he1, he2]
  · intro h2
    rcases he1 : (run sched).exec1 with _ | _ <;>
      rcases he2 : (run sched).exec2 with _ | _ <;>
      simp [downloadCount, he1, he2] at h2
    exact hC he1 he2
  · intro w1 w2
    rcases ht1 : (run sched).timedOut1 with _ | _
    · rcases ht2 : (run sched).timedOut2 with _ | _
      · exact absurd ⟨w1, w2, ht1, ht2⟩ hO
      · exact Or.inr rfl
    · exact Or.inl rfl
  · intro n hn hw hf
    rcases hS : run sched with ⟨p1, p2, lk, a, f, m, e1, e2, t1, t2⟩
    rw [hS] at hw hf
    have hw' : p2 = TPhase.waiting n := hw
    have hf' : f = true := hf
    subst hw'
    subst hf'
    simp [applyStep, threadStep, hn]
  · intro orc url q vid st hvid
    unfold getTiktokVideo
    rw [hvid]
    rcases hL : lookupFs st.fs (mp3Path vid q) with _ | sz
    · simp only [hL]
      simpa [runPipelineFull] using
        tryMethods_result_canonical orc vid q [0, 1, 2, 3]
          { st with active := insertActive vid st.active }
    · by_cases hsz : 0 < sz
      · simp [hL, hsz]
      · simp only [hL]
        rw [if_neg hsz]
        simpa [runPipelineFull] using
          tryMethods_result_canonical orc vid q [0, 1, 2, 3]
            { st with active := insertActive vid st.active }

/-- Witness for C1 (amended): on the join schedule thread 2 finishes as an
observer with no download of its own, and on every schedule the count is at
most 2 — shown at `dupSched`. -/
theorem inflight_dedup_bounded_wait_witness :
    (run joinSched).exec2 = false ∧ downloadCount (run dupSched) ≤ 2 := by
  constructor
  · exact (inflight_dedup_bounded_wait joinSched).2.2.2.2.1 (by decide)
  · exact (inflight_dedup_bounded_wait dupSched).1

end TikTokPipeline